import Mathlib

set_option maxRecDepth 40000

/-!
# Verification of the DualMC surface extraction core

Shallow embedding of the Dual Marching Cubes implementation
(`include/dualmc.h`, `include/dualmc.tpp`) and its offline table generator
(`apps/gentables/gentables.cpp`), together with proofs of the specified
properties.  Machine integers are modelled as `Nat`/`Int` (all involved
quantities are small bit masks or exact coordinates), floating point
interpolation is modelled over `ℚ`.
-/

namespace DualMC

/-! ## Edge codes (enum DMCEdgeCode, dualmc.h / gentables.h) -/

def EDGE0 : Nat := 1
def EDGE1 : Nat := 2
def EDGE2 : Nat := 4
def EDGE3 : Nat := 8
def EDGE4 : Nat := 16
def EDGE5 : Nat := 32
def EDGE6 : Nat := 64
def EDGE7 : Nat := 128
def EDGE8 : Nat := 256
def EDGE9 : Nat := 512
def EDGE10 : Nat := 1024
def EDGE11 : Nat := 2048

/-- `GenerateTablesApp::cornerEdges[8][3]`: for a corner given by its Morton
code, the edge masks of the adjacent edges in x, y and z direction. -/
def cornerEdges (k : Nat) : List Nat :=
  [[EDGE0, EDGE8, EDGE3],
   [EDGE0, EDGE9, EDGE1],
   [EDGE4, EDGE8, EDGE7],
   [EDGE4, EDGE9, EDGE5],
   [EDGE2, EDGE11, EDGE3],
   [EDGE2, EDGE10, EDGE1],
   [EDGE6, EDGE11, EDGE7],
   [EDGE6, EDGE10, EDGE5]].getD k []

/-! ## DMC table generator (GenerateTablesApp::generateDualMCTable)

The inner `while(!cornerStack.empty())` loop of the generator expands the
connected subgraph of inside corners reachable from a start corner.  The
stack is modelled as a list with its head as `back()`; each corner is pushed
at most once, so a fuel of 16 strictly dominates the number of iterations. -/

/-- One stack iteration state: (cornerStack, connectedCornersMask, dualPointCode). -/
def expandStep (cubeMask : Nat) (st : List Nat × Nat × Nat) : List Nat × Nat × Nat :=
  match st with
  | ([], conn, dpc) => ([], conn, dpc)
  | (corner :: rest, conn, dpc) =>
    -- neighbors of the popped corner in x, y, z order (CubeCornerCode::nX/nY/nZ)
    [(corner ^^^ 1, 0), (corner ^^^ 2, 1), (corner ^^^ 4, 2)].foldl
      (fun st nb =>
        let stack := st.1
        let conn := st.2.1
        let dpc := st.2.2
        let ncode := nb.1
        let axis := nb.2
        if cubeMask &&& (1 <<< ncode) == 0 then
          -- neighbor outside: register the intersection edge
          (stack, conn, dpc ||| (cornerEdges corner).getD axis 0)
        else if conn &&& (1 <<< ncode) == 0 then
          -- connected corner not seen yet: mark and push
          (ncode :: stack, conn ||| (1 <<< ncode), dpc)
        else
          (stack, conn, dpc))
      (rest, conn, dpc)

/-- Run the subgraph expansion loop to completion (fuel-bounded). -/
def expandLoop (cubeMask : Nat) : Nat → List Nat × Nat × Nat → Nat × Nat
  | 0, (_, conn, dpc) => (conn, dpc)
  | fuel + 1, st =>
    match st with
    | ([], conn, dpc) => (conn, dpc)
    | st => expandLoop cubeMask fuel (expandStep cubeMask st)

/-- The corner loop body of `generateDualMCTable` for one cube mask:
returns the list of dual point codes (one per connected inside component). -/
def dmcRowCore (cubeMask : Nat) : List Nat :=
  ((List.range 8).foldl
    (fun (st : List Nat × Nat) c =>
      let entries := st.1
      let processed := st.2
      if (1 <<< c) &&& processed != 0 || cubeMask &&& (1 <<< c) == 0 then
        (entries, processed ||| (1 <<< c))
      else
        let r := expandLoop cubeMask 16 ([c], 1 <<< c, 0)
        (entries ++ [r.2], processed ||| r.1))
    ([], 0)).1

/-- Row `i` of the generated DMC table `dualPointsList[256][4]`
(`generateDualMCTable`): rows 0 and 255 are all zeros; the four problematic
configurations 126, 189, 219, 231 are computed from the inverted mask;
entries are padded with zeros to length 4. -/
def dmcRow (i : Nat) : List Nat :=
  if i = 0 ∨ i = 255 then [0, 0, 0, 0]
  else
    let cubeMask := if i = 126 ∨ i = 189 ∨ i = 219 ∨ i = 231 then i ^^^ 0xff else i
    let entries := dmcRowCore cubeMask
    entries ++ List.replicate (4 - entries.length) 0

/-- The static table `DualMC<T>::dualPointsList` as produced by the generator. -/
def dualPointsList (c : Nat) : List Nat := dmcRow c

/-! ## Manifold table generator (GenerateTablesApp::generateManifoldTable) -/

/-- Corner bit masks C0..C7 (CubeConfiguration). -/
def C0 : Nat := 1
def C1 : Nat := 2
def C2 : Nat := 4
def C3 : Nat := 8
def C4 : Nat := 16
def C5 : Nat := 32
def C6 : Nat := 64
def C7 : Nat := 128

/-- `CubeConfiguration::rotX`. -/
def rotXconfig (config : Nat) : Nat :=
  ((config &&& (C0 ||| C1)) <<< 2) |||
  ((config &&& (C2 ||| C3)) <<< 4) |||
  ((config &&& (C4 ||| C5)) >>> 4) |||
  ((config &&& (C6 ||| C7)) >>> 2)

/-- `CubeConfiguration::rotY`. -/
def rotYconfig (config : Nat) : Nat :=
  ((config &&& (C0 ||| C2)) <<< 4) |||
  ((config &&& (C1 ||| C3)) >>> 1) |||
  ((config &&& (C4 ||| C6)) <<< 1) |||
  ((config &&& (C5 ||| C7)) >>> 4)

/-- `CubeConfiguration::rotZ`. -/
def rotZconfig (config : Nat) : Nat :=
  ((config &&& (C0 ||| C4)) <<< 1) |||
  ((config &&& (C1 ||| C5)) <<< 2) |||
  ((config &&& (C2 ||| C6)) >>> 2) |||
  ((config &&& (C3 ||| C7)) >>> 1)

/-- Axis values (CoordinateAxis::Value): NX=0, PX=1, NY=2, PY=3, NZ=4, PZ=5. -/
def axisNX : Nat := 0
def axisPX : Nat := 1
def axisNY : Nat := 2
def axisPY : Nat := 3
def axisNZ : Nat := 4
def axisPZ : Nat := 5

/-- `CoordinateAxis::rotX` rotation table. -/
def rotXaxis (v : Nat) : Nat := [axisNX, axisPX, axisNZ, axisPZ, axisPY, axisNY].getD v 0

/-- `CoordinateAxis::rotY` rotation table. -/
def rotYaxis (v : Nat) : Nat := [axisPZ, axisNZ, axisNY, axisPY, axisNX, axisPX].getD v 0

/-- `CoordinateAxis::rotZ` rotation table. -/
def rotZaxis (v : Nat) : Nat := [axisNY, axisPY, axisPX, axisNX, axisNZ, axisPZ].getD v 0

/-- `GenerateTablesApp::registerConfigAxisRotations`: apply the rotation `f`
four times to a (by-value) copy of the configuration, storing each resulting
configuration with the axis direction in the map.  The map is modelled as a
function `Nat → Nat`; later insertions shadow earlier ones. -/
def registerConfigAxisRotations (f : Nat → Nat) (config axis : Nat) (m : Nat → Nat) : Nat → Nat :=
  let c1 := f config
  let c2 := f c1
  let c3 := f c2
  let c4 := f c3
  fun c =>
    if c = c4 then axis
    else if c = c3 then axis
    else if c = c2 then axis
    else if c = c1 then axis
    else m c

/-- `GenerateTablesApp::exploreConfigRotations`: bring the ambiguous face of
the representative into all six axis directions and roll around each. -/
def exploreConfigRotations (config : Nat) (m : Nat → Nat) : Nat → Nat :=
  -- initial ambiguous face direction is +x
  -- PX case
  let m := registerConfigAxisRotations rotXconfig config axisPX m
  -- PY case
  let a := rotZaxis axisPX
  let c := rotZconfig config
  let m := registerConfigAxisRotations rotYconfig c a m
  -- NX case
  let a := rotZaxis a
  let c := rotZconfig c
  let m := registerConfigAxisRotations rotXconfig c a m
  -- NY case
  let a := rotZaxis a
  let c := rotZconfig c
  let m := registerConfigAxisRotations rotYconfig c a m
  -- NZ case
  let a := rotXaxis a
  let c := rotXconfig c
  let m := registerConfigAxisRotations rotZconfig c a m
  -- PZ case
  let a := rotXaxis (rotXaxis a)
  let c := rotXconfig (rotXconfig c)
  registerConfigAxisRotations rotZconfig c a m

/-- Representative C16 (ambiguous face in +x direction). -/
def c16config : Nat := C0 ||| C1 ||| C2 ||| C6 ||| C7

/-- Representative C19 (ambiguous face in +x direction). -/
def c19config : Nat := C0 ||| C1 ||| C2 ||| C4 ||| C6 ||| C7

/-- `GenerateTablesApp::generateManifoldTable` combined with
`writeManifoldTable`: configurations absent from the map get the sentinel
value 255.  This is the static table `DualMC<T>::problematicConfigs`. -/
def problematicConfigs (c : Nat) : Nat :=
  exploreConfigRotations c19config (exploreConfigRotations c16config (fun _ => 255)) c

/-! ## Edge endpoints and straddling edges

Geometric facts about the cube: edge `e` joins two corners (Morton codes).
These pairs are exactly the (corner, axis) incidences recorded in
`cornerEdges`; the agreement is proved below (`cornerEdges_eq_endpoint_edge`). -/

/-- The two endpoint corners (Morton codes) of each of the twelve cube edges,
low corner first. -/
def edgeCorners (e : Nat) : Nat × Nat :=
  [(0, 1), (1, 5), (4, 5), (0, 4), (2, 3), (3, 7), (6, 7), (2, 6),
   (0, 2), (1, 3), (5, 7), (4, 6)].getD e (0, 0)

/-- The 12-bit mask of all edges whose two endpoint corners differ in
inside/outside membership under the 8-bit cube mask `c`. -/
def straddleMask (c : Nat) : Nat :=
  (List.range 12).foldl
    (fun acc e =>
      if c.testBit (edgeCorners e).1 ≠ c.testBit (edgeCorners e).2 then
        acc ||| (1 <<< e)
      else acc)
    0

/-! ## Runtime engine data model (dualmc.h)

The volume is a read-only scalar field addressed through the linearized
index `gA`.  The sample type `T` (uint8/uint16 in the applications) is
modelled as `Int`; float computations of `calculateDualPoint` are modelled
exactly over `ℚ`. -/

/-- A volume: extents and the sample buffer, addressed by linearized index. -/
structure Volume where
  dimX : Int
  dimY : Int
  dimZ : Int
  data : Int → Int

/-- `DualMC<T>::gA`: linearized cell index `x + dims[0]*(y + dims[1]*z)`. -/
def gA (V : Volume) (x y z : Int) : Int := x + V.dimX * (y + V.dimY * z)

/-- `DualMC<T>::getCellCode`: the 8-bit inside/outside mask of the eight
cube corners of cell (cx,cy,cz); a sample is inside iff it is `≥ iso`. -/
def getCellCode (V : Volume) (iso : Int) (cx cy cz : Int) : Nat :=
  (if V.data (gA V cx cy cz) ≥ iso then 1 else 0) |||
  (if V.data (gA V (cx+1) cy cz) ≥ iso then 2 else 0) |||
  (if V.data (gA V cx (cy+1) cz) ≥ iso then 4 else 0) |||
  (if V.data (gA V (cx+1) (cy+1) cz) ≥ iso then 8 else 0) |||
  (if V.data (gA V cx cy (cz+1)) ≥ iso then 16 else 0) |||
  (if V.data (gA V (cx+1) cy (cz+1)) ≥ iso then 32 else 0) |||
  (if V.data (gA V cx (cy+1) (cz+1)) ≥ iso then 64 else 0) |||
  (if V.data (gA V (cx+1) (cy+1) (cz+1)) ≥ iso then 128 else 0)

/-- The dimension of coordinate axis `component` (`dims[component]`). -/
def dimOf (V : Volume) (component : Nat) : Int :=
  if component = 0 then V.dimX else if component = 1 then V.dimY else V.dimZ

/-- The cube code used for the dual point lookup in
`DualMC<T>::getDualPointCode`: the cell code of (cx,cy,cz), inverted when
the manifold correction applies (manifold mode on, problematic
configuration, neighbour across the ambiguous face inside the volume and
itself problematic). -/
def correctedCubeCode (V : Volume) (generateManifold : Bool) (iso : Int)
    (cx cy cz : Int) : Nat :=
  let cubeCode := getCellCode V iso cx cy cz
  if generateManifold then
    -- check if we have a potentially problematic configuration
    let direction := problematicConfigs cubeCode
    if direction ≠ 255 then
      -- neighbor sharing the ambiguous face
      let component := direction >>> 1
      let delta : Int := if direction &&& 1 = 1 then 1 else -1
      let nx := if component = 0 then cx + delta else cx
      let ny := if component = 1 then cy + delta else cy
      let nz := if component = 2 then cz + delta else cz
      let ncoord := if component = 0 then nx else if component = 1 then ny else nz
      -- have we left the volume in this direction?
      if 0 ≤ ncoord ∧ ncoord < dimOf V component - 1 then
        let neighborCubeCode := getCellCode V iso nx ny nz
        if problematicConfigs neighborCubeCode ≠ 255 then cubeCode ^^^ 0xff
        else cubeCode
      else cubeCode
    else cubeCode
  else cubeCode

/-- `DualMC<T>::getDualPointCode`: look up the dual point of cell
(cx,cy,cz) containing the cube edge `edge` (a 12-bit one-hot mask),
applying the manifold correction when `generateManifold` is set; the result
is the first of the four entries of `dualPointsList` whose bitwise AND with
`edge` is non-zero, or 0 if none. -/
def getDualPointCode (V : Volume) (generateManifold : Bool) (iso : Int)
    (cx cy cz : Int) (edge : Nat) : Nat :=
  let cubeCode := correctedCubeCode V generateManifold iso cx cy cz
  (((dualPointsList cubeCode).find? (fun entry => entry &&& edge != 0)).getD 0)

/-! ## Dual point geometry (DualMC<T>::calculateDualPoint) -/

/-- A vertex (three float components, modelled exactly over `ℚ`). -/
structure Vertex where
  x : ℚ
  y : ℚ
  z : ℚ
deriving DecidableEq

/-- Linear interpolation coordinate `(iso - a)/(b - a)` on an edge between
samples `a` and `b`. -/
def interp (iso a b : Int) : ℚ := ((iso : ℚ) - (a : ℚ)) / ((b : ℚ) - (a : ℚ))

/-- The two samples at the endpoints of cube edge `e` of cell (cx,cy,cz),
in the order they appear in the corresponding `calculateDualPoint` branch. -/
def edgeSamples (V : Volume) (cx cy cz : Int) (e : Nat) : Int × Int :=
  match e with
  | 0 => (V.data (gA V cx cy cz), V.data (gA V (cx+1) cy cz))
  | 1 => (V.data (gA V (cx+1) cy cz), V.data (gA V (cx+1) cy (cz+1)))
  | 2 => (V.data (gA V cx cy (cz+1)), V.data (gA V (cx+1) cy (cz+1)))
  | 3 => (V.data (gA V cx cy cz), V.data (gA V cx cy (cz+1)))
  | 4 => (V.data (gA V cx (cy+1) cz), V.data (gA V (cx+1) (cy+1) cz))
  | 5 => (V.data (gA V (cx+1) (cy+1) cz), V.data (gA V (cx+1) (cy+1) (cz+1)))
  | 6 => (V.data (gA V cx (cy+1) (cz+1)), V.data (gA V (cx+1) (cy+1) (cz+1)))
  | 7 => (V.data (gA V cx (cy+1) cz), V.data (gA V cx (cy+1) (cz+1)))
  | 8 => (V.data (gA V cx cy cz), V.data (gA V cx (cy+1) cz))
  | 9 => (V.data (gA V (cx+1) cy cz), V.data (gA V (cx+1) (cy+1) cz))
  | 10 => (V.data (gA V (cx+1) cy (cz+1)), V.data (gA V (cx+1) (cy+1) (cz+1)))
  | 11 => (V.data (gA V cx cy (cz+1)), V.data (gA V cx (cy+1) (cz+1)))
  | _ => (0, 0)

/-- The contribution of edge `e` to the dual point accumulator `p`:
the fixed offsets plus the interpolated coordinate of the corresponding
`if(pointCode & EDGEe)` branch of `calculateDualPoint`. -/
def edgeContrib (V : Volume) (iso : Int) (cx cy cz : Int) (e : Nat) : ℚ × ℚ × ℚ :=
  let s := edgeSamples V cx cy cz e
  let t := interp iso s.1 s.2
  match e with
  | 0 => (t, 0, 0)
  | 1 => (1, 0, t)
  | 2 => (t, 0, 1)
  | 3 => (0, 0, t)
  | 4 => (t, 1, 0)
  | 5 => (1, 1, t)
  | 6 => (t, 1, 1)
  | 7 => (0, 1, t)
  | 8 => (0, t, 0)
  | 9 => (1, t, 0)
  | 10 => (1, t, 1)
  | 11 => (0, t, 1)
  | _ => (0, 0, 0)

/-- The edges set in a 12-bit point code, in ascending order. -/
def codeEdges (code : Nat) : List Nat :=
  (List.range 12).filter (fun e => code &&& (1 <<< e) != 0)

/-- The accumulation loop of `calculateDualPoint`: sum the contributions of
the given edges onto the accumulator `acc`. -/
def contribFold (V : Volume) (iso cx cy cz : Int) (l : List Nat)
    (acc : ℚ × ℚ × ℚ) : ℚ × ℚ × ℚ :=
  l.foldl
    (fun acc e =>
      let c := edgeContrib V iso cx cy cz e
      (acc.1 + c.1, acc.2.1 + c.2.1, acc.2.2 + c.2.2))
    acc

/-- `DualMC<T>::calculateDualPoint`: mean of the edge intersection vertices
selected by `pointCode`, offset by the cell coordinates. -/
def calculateDualPoint (V : Volume) (iso : Int) (cx cy cz : Int)
    (pointCode : Nat) : Vertex :=
  let edges := codeEdges pointCode
  let points : ℚ := edges.length
  let p := contribFold V iso cx cy cz edges (0, 0, 0)
  ⟨(cx : ℚ) + p.1 / points, (cy : ℚ) + p.2.1 / points, (cz : ℚ) + p.2.2 / points⟩

/-! ## Shared-vertex deduplication (DualMC<T>::getSharedDualPointIndex) -/

/-- State threaded through a shared-vertex build: the output vertices and
quads and the `pointToIndex` hash map, modelled as an association list from
`DualPointKey = (linearizedCellID, pointCode)` to vertex index. -/
structure SharedState where
  vertices : List Vertex
  quads : List (Nat × Nat × Nat × Nat)
  pointToIndex : List ((Int × Nat) × Nat)

/-- `DualMC<T>::getSharedDualPointIndex`: return the index stored for the
dual point key, creating the vertex and registering a fresh index on a miss. -/
def getSharedDualPointIndex (V : Volume) (gm : Bool) (iso : Int)
    (cx cy cz : Int) (edge : Nat) (st : SharedState) : Nat × SharedState :=
  let key : Int × Nat := (gA V cx cy cz, getDualPointCode V gm iso cx cy cz edge)
  match st.pointToIndex.find? (fun p => decide (p.1 = key)) with
  | some p => (p.2, st)
  | none =>
    let newVertexId := st.vertices.length
    let v := calculateDualPoint V iso cx cy cz key.2
    (newVertexId,
     { st with vertices := st.vertices ++ [v],
               pointToIndex := st.pointToIndex ++ [(key, newVertexId)] })

/-! ## Quad emission (buildSharedVerticesQuads / buildQuadSoup)

Each of the three per-cell edge branches gathers the dual points of the four
cubes incident to the crossed edge and emits one quad; `fwd` selects between
the emission orders `(v0,v1,v2,v3)` and `(v0,v3,v2,v1)`. -/

/-- The `entering` classification of the x-edge rooted at cell (x,y,z). -/
def xEdgeEntering (V : Volume) (iso : Int) (x y z : Int) : Prop :=
  V.data (gA V x y z) < iso ∧ V.data (gA V (x+1) y z) ≥ iso

/-- The `exiting` classification of the x-edge rooted at cell (x,y,z). -/
def xEdgeExiting (V : Volume) (iso : Int) (x y z : Int) : Prop :=
  V.data (gA V x y z) ≥ iso ∧ V.data (gA V (x+1) y z) < iso

/-- The `entering` classification of the y-edge rooted at cell (x,y,z). -/
def yEdgeEntering (V : Volume) (iso : Int) (x y z : Int) : Prop :=
  V.data (gA V x y z) < iso ∧ V.data (gA V x (y+1) z) ≥ iso

/-- The `exiting` classification of the y-edge rooted at cell (x,y,z). -/
def yEdgeExiting (V : Volume) (iso : Int) (x y z : Int) : Prop :=
  V.data (gA V x y z) ≥ iso ∧ V.data (gA V x (y+1) z) < iso

/-- The `entering` classification of the z-edge rooted at cell (x,y,z). -/
def zEdgeEntering (V : Volume) (iso : Int) (x y z : Int) : Prop :=
  V.data (gA V x y z) < iso ∧ V.data (gA V x y (z+1)) ≥ iso

/-- The `exiting` classification of the z-edge rooted at cell (x,y,z). -/
def zEdgeExiting (V : Volume) (iso : Int) (x y z : Int) : Prop :=
  V.data (gA V x y z) ≥ iso ∧ V.data (gA V x y (z+1)) < iso

instance (V : Volume) (iso x y z : Int) : Decidable (xEdgeEntering V iso x y z) := by
  unfold xEdgeEntering; infer_instance

instance (V : Volume) (iso x y z : Int) : Decidable (xEdgeExiting V iso x y z) := by
  unfold xEdgeExiting; infer_instance

instance (V : Volume) (iso x y z : Int) : Decidable (yEdgeEntering V iso x y z) := by
  unfold yEdgeEntering; infer_instance

instance (V : Volume) (iso x y z : Int) : Decidable (yEdgeExiting V iso x y z) := by
  unfold yEdgeExiting; infer_instance

instance (V : Volume) (iso x y z : Int) : Decidable (zEdgeEntering V iso x y z) := by
  unfold zEdgeEntering; infer_instance

instance (V : Volume) (iso x y z : Int) : Decidable (zEdgeExiting V iso x y z) := by
  unfold zEdgeExiting; infer_instance

/-- Emit one shared-vertex quad: gather the four dual point indices for the
four cells `p0..p3` at their incident edges `e0..e3` (in this order,
threading the map state), then append the quad `(i0,i1,i2,i3)` when `fwd`
and `(i0,i3,i2,i1)` otherwise. -/
def sharedQuad (V : Volume) (gm : Bool) (iso : Int)
    (p0 p1 p2 p3 : Int × Int × Int) (e0 e1 e2 e3 : Nat) (fwd : Bool)
    (st : SharedState) : SharedState :=
  let r0 := getSharedDualPointIndex V gm iso p0.1 p0.2.1 p0.2.2 e0 st
  let r1 := getSharedDualPointIndex V gm iso p1.1 p1.2.1 p1.2.2 e1 r0.2
  let r2 := getSharedDualPointIndex V gm iso p2.1 p2.2.1 p2.2.2 e2 r1.2
  let r3 := getSharedDualPointIndex V gm iso p3.1 p3.2.1 p3.2.2 e3 r2.2
  let st := r3.2
  if fwd then { st with quads := st.quads ++ [(r0.1, r1.1, r2.1, r3.1)] }
  else { st with quads := st.quads ++ [(r0.1, r3.1, r2.1, r1.1)] }

/-- Emit one quad-soup quad: compute the four dual points of the four cells
`p0..p3` at their incident edges `e0..e3` and append them in the order
`v0,v1,v2,v3` when `fwd` and `v0,v3,v2,v1` otherwise. -/
def soupQuad (V : Volume) (gm : Bool) (iso : Int)
    (p0 p1 p2 p3 : Int × Int × Int) (e0 e1 e2 e3 : Nat) (fwd : Bool)
    (verts : List Vertex) : List Vertex :=
  let v0 := calculateDualPoint V iso p0.1 p0.2.1 p0.2.2
    (getDualPointCode V gm iso p0.1 p0.2.1 p0.2.2 e0)
  let v1 := calculateDualPoint V iso p1.1 p1.2.1 p1.2.2
    (getDualPointCode V gm iso p1.1 p1.2.1 p1.2.2 e1)
  let v2 := calculateDualPoint V iso p2.1 p2.2.1 p2.2.2
    (getDualPointCode V gm iso p2.1 p2.2.1 p2.2.2 e2)
  let v3 := calculateDualPoint V iso p3.1 p3.2.1 p3.2.2
    (getDualPointCode V gm iso p3.1 p3.2.1 p3.2.2 e3)
  if fwd then verts ++ [v0, v1, v2, v3] else verts ++ [v0, v3, v2, v1]

/-- The x-edge branch of the shared-vertex loop body (`construct quads for x
edge`): active when `z > 0 && y > 0` and the edge is crossed; forward
winding when entering. -/
def xEdgeStepShared (V : Volume) (gm : Bool) (iso : Int) (x y z : Int)
    (st : SharedState) : SharedState :=
  if z > 0 ∧ y > 0 then
    if xEdgeEntering V iso x y z ∨ xEdgeExiting V iso x y z then
      sharedQuad V gm iso (x,y,z) (x,y,z-1) (x,y-1,z-1) (x,y-1,z)
        EDGE0 EDGE2 EDGE6 EDGE4 (decide (xEdgeEntering V iso x y z)) st
    else st
  else st

/-- The y-edge branch of the shared-vertex loop body: active when
`z > 0 && x > 0`; forward winding when exiting. -/
def yEdgeStepShared (V : Volume) (gm : Bool) (iso : Int) (x y z : Int)
    (st : SharedState) : SharedState :=
  if z > 0 ∧ x > 0 then
    if yEdgeEntering V iso x y z ∨ yEdgeExiting V iso x y z then
      sharedQuad V gm iso (x,y,z) (x,y,z-1) (x-1,y,z-1) (x-1,y,z)
        EDGE8 EDGE11 EDGE10 EDGE9 (decide (yEdgeExiting V iso x y z)) st
    else st
  else st

/-- The z-edge branch of the shared-vertex loop body: active when
`x > 0 && y > 0`; forward winding when exiting. -/
def zEdgeStepShared (V : Volume) (gm : Bool) (iso : Int) (x y z : Int)
    (st : SharedState) : SharedState :=
  if x > 0 ∧ y > 0 then
    if zEdgeEntering V iso x y z ∨ zEdgeExiting V iso x y z then
      sharedQuad V gm iso (x,y,z) (x-1,y,z) (x-1,y-1,z) (x,y-1,z)
        EDGE3 EDGE1 EDGE5 EDGE7 (decide (zEdgeExiting V iso x y z)) st
    else st
  else st

/-- One iteration of the shared-vertex voxel loop: the x-, y- and z-edge
branches in program order. -/
def cellStepShared (V : Volume) (gm : Bool) (iso : Int) (x y z : Int)
    (st : SharedState) : SharedState :=
  zEdgeStepShared V gm iso x y z
    (yEdgeStepShared V gm iso x y z
      (xEdgeStepShared V gm iso x y z st))

/-- The x-edge branch of the quad-soup loop body. -/
def xEdgeStepSoup (V : Volume) (gm : Bool) (iso : Int) (x y z : Int)
    (verts : List Vertex) : List Vertex :=
  if z > 0 ∧ y > 0 then
    if xEdgeEntering V iso x y z ∨ xEdgeExiting V iso x y z then
      soupQuad V gm iso (x,y,z) (x,y,z-1) (x,y-1,z-1) (x,y-1,z)
        EDGE0 EDGE2 EDGE6 EDGE4 (decide (xEdgeEntering V iso x y z)) verts
    else verts
  else verts

/-- The y-edge branch of the quad-soup loop body. -/
def yEdgeStepSoup (V : Volume) (gm : Bool) (iso : Int) (x y z : Int)
    (verts : List Vertex) : List Vertex :=
  if z > 0 ∧ x > 0 then
    if yEdgeEntering V iso x y z ∨ yEdgeExiting V iso x y z then
      soupQuad V gm iso (x,y,z) (x,y,z-1) (x-1,y,z-1) (x-1,y,z)
        EDGE8 EDGE11 EDGE10 EDGE9 (decide (yEdgeExiting V iso x y z)) verts
    else verts
  else verts

/-- The z-edge branch of the quad-soup loop body. -/
def zEdgeStepSoup (V : Volume) (gm : Bool) (iso : Int) (x y z : Int)
    (verts : List Vertex) : List Vertex :=
  if x > 0 ∧ y > 0 then
    if zEdgeEntering V iso x y z ∨ zEdgeExiting V iso x y z then
      soupQuad V gm iso (x,y,z) (x-1,y,z) (x-1,y-1,z) (x,y-1,z)
        EDGE3 EDGE1 EDGE5 EDGE7 (decide (zEdgeExiting V iso x y z)) verts
    else verts
  else verts

/-- One iteration of the quad-soup voxel loop. -/
def cellStepSoup (V : Volume) (gm : Bool) (iso : Int) (x y z : Int)
    (verts : List Vertex) : List Vertex :=
  zEdgeStepSoup V gm iso x y z
    (yEdgeStepSoup V gm iso x y z
      (xEdgeStepSoup V gm iso x y z verts))

/-- The iterated voxel cells `[0, dimX-2) × [0, dimY-2) × [0, dimZ-2)` in
loop order (z outermost, x innermost). -/
def cellList (V : Volume) : List (Int × Int × Int) :=
  (List.range (V.dimZ - 2).toNat).flatMap (fun z =>
    (List.range (V.dimY - 2).toNat).flatMap (fun y =>
      (List.range (V.dimX - 2).toNat).map (fun x => ((x : Int), (y : Int), (z : Int)))))

/-- `DualMC<T>::buildSharedVerticesQuads`: run the voxel loop over the
empty initial state. -/
def buildSharedVerticesQuads (V : Volume) (gm : Bool) (iso : Int) : SharedState :=
  (cellList V).foldl (fun st c => cellStepShared V gm iso c.1 c.2.1 c.2.2 st)
    ⟨[], [], []⟩

/-- `DualMC<T>::buildQuadSoup`: run the voxel loop collecting vertices, then
generate the strictly sequential quads `(4k, 4k+1, 4k+2, 4k+3)`. -/
def buildQuadSoup (V : Volume) (gm : Bool) (iso : Int) :
    List Vertex × List (Nat × Nat × Nat × Nat) :=
  let vertices := (cellList V).foldl
    (fun vs c => cellStepSoup V gm iso c.1 c.2.1 c.2.2 vs) []
  let numQuads := vertices.length / 4
  (vertices, (List.range numQuads).map (fun i => (i*4, i*4+1, i*4+2, i*4+3)))

/-- `DualMC<T>::build`: clears the outputs and populates them in the
requested mode. -/
def build (V : Volume) (iso : Int) (generateManifold generateSoup : Bool) :
    List Vertex × List (Nat × Nat × Nat × Nat) :=
  if generateSoup then buildQuadSoup V generateManifold iso
  else
    let st := buildSharedVerticesQuads V generateManifold iso
    (st.vertices, st.quads)

/-! ## Auxiliary definitions used by the verification -/

/-- The sample at corner `k` (Morton code) of cell (cx,cy,cz). -/
def cornerSample (V : Volume) (cx cy cz : Int) (k : Nat) : Int :=
  V.data (gA V (cx + ((k &&& 1 : Nat) : Int)) (cy + (((k >>> 1) &&& 1 : Nat) : Int))
    (cz + (((k >>> 2) &&& 1 : Nat) : Int)))

/-- Whether the two endpoint samples of cube edge `e` of cell (cx,cy,cz)
are classified differently by the `≥ iso` convention. -/
def edgeStraddles (V : Volume) (iso : Int) (cx cy cz : Int) (e : Nat) : Bool :=
  decide ((edgeSamples V cx cy cz e).1 ≥ iso) !=
  decide ((edgeSamples V cx cy cz e).2 ≥ iso)

/-- Modelled from the spec wording of `DualPointCode` (§4.3, the sentences
quoted by the claim): compute `c = CellCode`; in manifold mode with
`problematicConfigs[c] ≠ 255` form the neighbour by adding +1 to axis
`d >> 1` if `d` is odd and −1 otherwise; if the neighbour lies inside the
volume's cell range and its cell code is also problematic, replace `c` by
`c XOR 0xFF`; finally return the first of the four entries of
`dualPointsList[c]` whose bitwise AND with `edge` is non-zero, or 0. -/
def specCorrectedCubeCode (V : Volume) (manifoldMode : Bool) (iso : Int)
    (cx cy cz : Int) : Nat :=
  let c := getCellCode V iso cx cy cz
  let d := problematicConfigs c
  if manifoldMode ∧ d ≠ 255 then
    let axis := d >>> 1
    let sign : Int := if d % 2 = 1 then 1 else -1
    let neighbour := [cx, cy, cz].set axis ([cx, cy, cz].getD axis 0 + sign)
    let insideRange := 0 ≤ neighbour.getD axis 0 ∧
      neighbour.getD axis 0 < [V.dimX, V.dimY, V.dimZ].getD axis 0 - 1
    if insideRange ∧
        problematicConfigs (getCellCode V iso (neighbour.getD 0 0)
          (neighbour.getD 1 0) (neighbour.getD 2 0)) ≠ 255
    then c ^^^ 0xff else c
  else c

/-- Modelled from the spec wording, final step: scan the four entries of
`dualPointsList[c]` and return the first whose bitwise AND with `edge` is
non-zero, or 0 if none. -/
def getDualPointCodeSpec (V : Volume) (manifoldMode : Bool) (iso : Int)
    (cx cy cz : Int) (edge : Nat) : Nat :=
  ((dualPointsList (specCorrectedCubeCode V manifoldMode iso cx cy cz)).filter
    (fun entry => entry &&& edge != 0)).headD 0

/-- A concrete 4×4×4 volume with a single inside sample at voxel (1,1,1)
(linearized index 21); with iso 128 every edge incident to that voxel is
crossed. -/
def sampleVolume : Volume :=
  ⟨4, 4, 4, fun i => if i = 21 then 255 else 0⟩

/-- Modelled from the spec winding rule (§4.4): whether the emission order
is reversed to `(v0,v3,v2,v1)` for a crossed edge of the given axis
(0 = x, 1 = y, 2 = z) with the given entering flag: reversed iff exiting
for the x-axis and iff entering for the y- and z-axes. -/
def specWindingReversed (axis : Nat) (entering : Bool) : Bool :=
  if axis = 0 then !entering else entering

/-- All four indices of a quad are pairwise distinct. -/
def distinct4 (q : Nat × Nat × Nat × Nat) : Prop :=
  q.1 ≠ q.2.1 ∧ q.1 ≠ q.2.2.1 ∧ q.1 ≠ q.2.2.2 ∧
  q.2.1 ≠ q.2.2.1 ∧ q.2.1 ≠ q.2.2.2 ∧ q.2.2.1 ≠ q.2.2.2

/-- Invariant of the shared-vertex map: every stored index points into the
vertex list, and distinct map entries store distinct indices. -/
def MapInv (st : SharedState) : Prop :=
  (∀ p ∈ st.pointToIndex, p.2 < st.vertices.length) ∧
  (st.pointToIndex.map Prod.snd).Nodup

/-! # Theorems -/

/-! ## Bit-level bridges -/

theorem testBit_ite_pow (p : Prop) [Decidable p] (m k : Nat) :
    (if p then m else 0).testBit k = (decide p && m.testBit k) := by
  split <;> simp [*]

/-- Bit `k` of the cell code is the inside classification of corner `k`. -/
theorem getCellCode_testBit (V : Volume) (iso cx cy cz : Int) (k : Nat) (hk : k < 8) :
    (getCellCode V iso cx cy cz).testBit k
      = decide (cornerSample V cx cy cz k ≥ iso) := by
  interval_cases k <;>
  · simp only [getCellCode, Nat.testBit_or, testBit_ite_pow]
    simp [cornerSample, Nat.testBit_to_div_mod]

theorem getCellCode_lt (V : Volume) (iso cx cy cz : Int) :
    getCellCode V iso cx cy cz < 256 := by
  have h : ∀ (p : Prop) (_ : Decidable p) (m : Nat), m < 256 → (if p then m else 0) < 256 := by
    intro p _ m hm; split <;> omega
  have h2 : ∀ x y : Nat, x < 256 → y < 256 → x ||| y < 256 := by
    intro x y hx hy
    have := Nat.or_lt_two_pow (n := 8) (by simpa using hx) (by simpa using hy)
    simpa using this
  unfold getCellCode
  apply h2
  apply h2
  apply h2
  apply h2
  apply h2
  apply h2
  apply h2
  all_goals apply h
  all_goals norm_num

theorem xor255_lt {c : Nat} (hc : c < 256) : c ^^^ 255 < 256 := by
  have h1 : c < 2 ^ 8 := by simpa using hc
  have h2 : (255 : Nat) < 2 ^ 8 := by norm_num
  simpa using Nat.xor_lt_two_pow h1 h2

/-- A bit present in a submask is present in the mask:
`code &&& mask = code` and bit `e` set in `code` imply it is set in `mask`. -/
theorem and_subset_bit {code mask b : Nat} (hsub : code &&& mask = code)
    (hbit : code &&& b ≠ 0) : mask &&& b ≠ 0 := by
  intro h0
  apply hbit
  calc code &&& b = code &&& mask &&& b := by rw [hsub]
    _ = code &&& (mask &&& b) := Nat.and_assoc ..
    _ = 0 := by rw [h0, Nat.and_zero]

/-! ## Table lemmas (verified over all 256 cube codes) -/

/-- Straddling edges are invariant under complementing the cube mask. -/
theorem straddleMask_compl : ∀ c : Fin 256,
    straddleMask (c.val ^^^ 255) = straddleMask c.val := by decide

/-- Every entry of a DMC table row identifies only straddling edges. -/
theorem dualPointsList_sub : ∀ c : Fin 256, ∀ entry ∈ dualPointsList c.val,
    entry &&& straddleMask c.val = entry := by decide

/-- Every straddling edge is covered by some DMC table row entry. -/
theorem dualPointsList_cover : ∀ c : Fin 256, ∀ e : Fin 12,
    straddleMask c.val &&& (1 <<< e.val) ≠ 0 →
    ∃ entry ∈ dualPointsList c.val, entry &&& (1 <<< e.val) ≠ 0 := by decide

/-- Bit `e` of the straddle mask is set iff the edge endpoints differ. -/
theorem straddleMask_bit : ∀ c : Fin 256, ∀ e : Fin 12,
    (straddleMask c.val &&& (1 <<< e.val) ≠ 0) ↔
    c.val.testBit (edgeCorners e.val).1 ≠ c.val.testBit (edgeCorners e.val).2 := by
  decide

/-- The manifold table stores either an axis direction or the sentinel. -/
theorem problematicConfigs_range : ∀ c : Fin 256,
    problematicConfigs c.val = 255 ∨ problematicConfigs c.val ≤ 5 := by decide

/-- The endpoint corner codes of every edge are below 8. -/
theorem edgeCorners_lt : ∀ e : Fin 12,
    (edgeCorners e.val).1 < 8 ∧ (edgeCorners e.val).2 < 8 := by decide

/-! ## Edge sample bridges -/

/-- The sample pair of edge `e` consists of the samples at its endpoint
corners. -/
theorem edgeSamples_eq_corner (V : Volume) (cx cy cz : Int) : ∀ e : Fin 12,
    edgeSamples V cx cy cz e.val =
      (cornerSample V cx cy cz (edgeCorners e.val).1,
       cornerSample V cx cy cz (edgeCorners e.val).2) := by
  intro e
  fin_cases e <;> simp [edgeSamples, cornerSample, edgeCorners] <;> norm_num

/-- The straddle classification of edge `e` matches the cell code bits of
its endpoint corners. -/
theorem edgeStraddles_testBit (V : Volume) (iso cx cy cz : Int) (e : Fin 12) :
    edgeStraddles V iso cx cy cz e.val = true ↔
    (getCellCode V iso cx cy cz).testBit (edgeCorners e.val).1 ≠
      (getCellCode V iso cx cy cz).testBit (edgeCorners e.val).2 := by
  rw [edgeStraddles, edgeSamples_eq_corner V cx cy cz e,
    getCellCode_testBit V iso cx cy cz _ (edgeCorners_lt e).1,
    getCellCode_testBit V iso cx cy cz _ (edgeCorners_lt e).2]
  simp [bne_iff_ne]

/-- Straddling edges have distinct endpoint samples. -/
theorem edgeStraddles_ne {V : Volume} {iso cx cy cz : Int} {e : Nat}
    (h : edgeStraddles V iso cx cy cz e = true) :
    (edgeSamples V cx cy cz e).1 ≠ (edgeSamples V cx cy cz e).2 := by
  intro heq
  rw [edgeStraddles, heq] at h
  simp at h

/-! ## Semantics of getDualPointCode -/

/-- The corrected cube code is the cell code or its complement. -/
theorem correctedCubeCode_cases (V : Volume) (gm : Bool) (iso cx cy cz : Int) :
    correctedCubeCode V gm iso cx cy cz = getCellCode V iso cx cy cz ∨
    correctedCubeCode V gm iso cx cy cz = getCellCode V iso cx cy cz ^^^ 255 := by
  unfold correctedCubeCode
  dsimp only
  repeat' split
  all_goals simp

theorem correctedCubeCode_lt (V : Volume) (gm : Bool) (iso cx cy cz : Int) :
    correctedCubeCode V gm iso cx cy cz < 256 := by
  rcases correctedCubeCode_cases V gm iso cx cy cz with h | h <;> rw [h]
  · exact getCellCode_lt V iso cx cy cz
  · exact xor255_lt (getCellCode_lt V iso cx cy cz)

/-- The manifold correction does not change the straddling edges. -/
theorem straddleMask_corrected (V : Volume) (gm : Bool) (iso cx cy cz : Int) :
    straddleMask (correctedCubeCode V gm iso cx cy cz) =
    straddleMask (getCellCode V iso cx cy cz) := by
  rcases correctedCubeCode_cases V gm iso cx cy cz with h | h <;> rw [h]
  exact straddleMask_compl ⟨getCellCode V iso cx cy cz, getCellCode_lt V iso cx cy cz⟩

/-- Every edge set in a returned dual point code is a straddling edge of the
(uncorrected) cell code. -/
theorem getDualPointCode_sub (V : Volume) (gm : Bool) (iso cx cy cz : Int) (edge : Nat) :
    getDualPointCode V gm iso cx cy cz edge &&&
      straddleMask (getCellCode V iso cx cy cz) =
    getDualPointCode V gm iso cx cy cz edge := by
  unfold getDualPointCode
  cases hf : (dualPointsList (correctedCubeCode V gm iso cx cy cz)).find?
      (fun entry => entry &&& edge != 0) with
  | none => simp only [hf]; simp
  | some entry =>
    simp only [hf, Option.getD_some]
    have hmem := List.mem_of_find?_eq_some hf
    have hsub := dualPointsList_sub
      ⟨correctedCubeCode V gm iso cx cy cz, correctedCubeCode_lt V gm iso cx cy cz⟩
      entry hmem
    rw [straddleMask_corrected] at hsub
    exact hsub

/-- If the queried edge straddles, the returned dual point code contains it
(in particular the code is non-zero). -/
theorem getDualPointCode_contains (V : Volume) (gm : Bool) (iso cx cy cz : Int)
    (e : Fin 12) (hs : edgeStraddles V iso cx cy cz e.val = true) :
    getDualPointCode V gm iso cx cy cz (1 <<< e.val) &&& (1 <<< e.val) ≠ 0 := by
  have hcc := getCellCode_lt V iso cx cy cz
  have hbit : straddleMask (getCellCode V iso cx cy cz) &&& (1 <<< e.val) ≠ 0 :=
    (straddleMask_bit ⟨getCellCode V iso cx cy cz, hcc⟩ e).mpr
      ((edgeStraddles_testBit V iso cx cy cz e).mp hs)
  rw [← straddleMask_corrected V gm iso cx cy cz] at hbit
  obtain ⟨entry, hmem, hand⟩ := dualPointsList_cover
    ⟨correctedCubeCode V gm iso cx cy cz, correctedCubeCode_lt V gm iso cx cy cz⟩
    e hbit
  unfold getDualPointCode
  cases hf : (dualPointsList (correctedCubeCode V gm iso cx cy cz)).find?
      (fun entry => entry &&& (1 <<< e.val) != 0) with
  | none =>
    exfalso
    have := List.find?_eq_none.mp hf entry hmem
    simp only [bne_iff_ne, ne_eq, Decidable.not_not] at this
    exact hand this
  | some entry2 =>
    simp only [hf, Option.getD_some]
    have := List.find?_some hf
    simpa using this

/-- Every edge set in a returned dual point code straddles. -/
theorem getDualPointCode_straddles (V : Volume) (gm : Bool) (iso cx cy cz : Int)
    (edge : Nat) (e2 : Fin 12)
    (h : getDualPointCode V gm iso cx cy cz edge &&& (1 <<< e2.val) ≠ 0) :
    edgeStraddles V iso cx cy cz e2.val = true := by
  have hbit := and_subset_bit (getDualPointCode_sub V gm iso cx cy cz edge) h
  exact (edgeStraddles_testBit V iso cx cy cz e2).mpr
    ((straddleMask_bit ⟨getCellCode V iso cx cy cz, getCellCode_lt V iso cx cy cz⟩ e2).mp hbit)

/-! ## Interpolation and dual point bounds -/

/-- The interpolation coordinate lies in [0,1] whenever the two samples are
classified differently. -/
theorem interp_bounds {iso a b : Int} (h : decide (a ≥ iso) ≠ decide (b ≥ iso)) :
    0 ≤ interp iso a b ∧ interp iso a b ≤ 1 := by
  unfold interp
  by_cases ha : a ≥ iso <;> by_cases hb : b ≥ iso
  · simp [ha, hb] at h
  · -- a ≥ iso, b < iso: rewrite as (a - iso)/(a - b)
    have hrw : ((iso : ℚ) - a) / ((b : ℚ) - a) = ((a : ℚ) - iso) / ((a : ℚ) - b) := by
      rw [← neg_div_neg_eq]
      congr 1 <;> ring
    rw [hrw]
    have h1 : (iso : ℚ) ≤ a := by exact_mod_cast ha
    have h2 : (b : ℚ) < iso := by exact_mod_cast lt_of_not_ge hb
    constructor
    · exact div_nonneg (by linarith) (by linarith)
    · rw [div_le_one (by linarith)]
      linarith
  · -- a < iso, b ≥ iso
    have h1 : (a : ℚ) < iso := by exact_mod_cast lt_of_not_ge ha
    have h2 : (iso : ℚ) ≤ b := by exact_mod_cast hb
    constructor
    · exact div_nonneg (by linarith) (by linarith)
    · rw [div_le_one (by linarith)]
      linarith
  · simp [ha, hb] at h

/-- Each component of an edge contribution lies in [0,1] when the edge
straddles. -/
theorem edgeContrib_bounds (V : Volume) (iso cx cy cz : Int) (e : Fin 12)
    (hs : edgeStraddles V iso cx cy cz e.val = true) :
    (0 ≤ (edgeContrib V iso cx cy cz e.val).1 ∧ (edgeContrib V iso cx cy cz e.val).1 ≤ 1) ∧
    (0 ≤ (edgeContrib V iso cx cy cz e.val).2.1 ∧ (edgeContrib V iso cx cy cz e.val).2.1 ≤ 1) ∧
    (0 ≤ (edgeContrib V iso cx cy cz e.val).2.2 ∧ (edgeContrib V iso cx cy cz e.val).2.2 ≤ 1) := by
  have hb := interp_bounds (bne_iff_ne.mp hs)
  fin_cases e <;>
  · simp only [edgeContrib, edgeSamples] at hb ⊢
    refine ⟨?_, ?_, ?_⟩ <;> first
      | exact hb
      | constructor <;> norm_num

/-- Members of `codeEdges` are valid edge numbers. -/
theorem codeEdges_lt {code e : Nat} (h : e ∈ codeEdges code) : e < 12 := by
  unfold codeEdges at h
  exact List.mem_range.mp (List.mem_of_mem_filter h)

/-- Membership in `codeEdges` is exactly the set bits below 12. -/
theorem mem_codeEdges {code e : Nat} :
    e ∈ codeEdges code ↔ e < 12 ∧ code &&& (1 <<< e) ≠ 0 := by
  unfold codeEdges
  simp [List.mem_filter, List.mem_range]

/-- Accumulating straddling-edge contributions moves each component up by at
most the number of edges. -/
theorem contribFold_bounds (V : Volume) (iso cx cy cz : Int) (l : List Nat)
    (hs : ∀ e ∈ l, edgeStraddles V iso cx cy cz e = true)
    (hlt : ∀ e ∈ l, e < 12) (acc : ℚ × ℚ × ℚ) :
    (acc.1 ≤ (contribFold V iso cx cy cz l acc).1 ∧
      (contribFold V iso cx cy cz l acc).1 ≤ acc.1 + l.length) ∧
    (acc.2.1 ≤ (contribFold V iso cx cy cz l acc).2.1 ∧
      (contribFold V iso cx cy cz l acc).2.1 ≤ acc.2.1 + l.length) ∧
    (acc.2.2 ≤ (contribFold V iso cx cy cz l acc).2.2 ∧
      (contribFold V iso cx cy cz l acc).2.2 ≤ acc.2.2 + l.length) := by
  induction l generalizing acc with
  | nil => simp [contribFold]
  | cons e t IH =>
    have he := edgeContrib_bounds V iso cx cy cz
      ⟨e, hlt e (List.mem_cons_self e t)⟩ (hs e (List.mem_cons_self e t))
    have hstep : contribFold V iso cx cy cz (e :: t) acc =
        contribFold V iso cx cy cz t
          (acc.1 + (edgeContrib V iso cx cy cz e).1,
           acc.2.1 + (edgeContrib V iso cx cy cz e).2.1,
           acc.2.2 + (edgeContrib V iso cx cy cz e).2.2) := rfl
    have IH' := IH (fun x hx => hs x (List.mem_cons_of_mem e hx))
      (fun x hx => hlt x (List.mem_cons_of_mem e hx))
      (acc.1 + (edgeContrib V iso cx cy cz e).1,
       acc.2.1 + (edgeContrib V iso cx cy cz e).2.1,
       acc.2.2 + (edgeContrib V iso cx cy cz e).2.2)
    rw [hstep]
    simp only [List.length_cons] at IH' ⊢
    push_cast at IH' ⊢
    refine ⟨⟨?_, ?_⟩, ⟨?_, ?_⟩, ⟨?_, ?_⟩⟩ <;>
      linarith [IH'.1.1, IH'.1.2, IH'.2.1.1, IH'.2.1.2, IH'.2.2.1, IH'.2.2.2,
        he.1.1, he.1.2, he.2.1.1, he.2.1.2, he.2.2.1, he.2.2.2]

/-- The dual point lies in the unit cube of its cell whenever its point code
is non-empty and all its edges straddle. -/
theorem calculateDualPoint_bounds (V : Volume) (iso cx cy cz : Int) (code : Nat)
    (hne : codeEdges code ≠ [])
    (hs : ∀ e ∈ codeEdges code, edgeStraddles V iso cx cy cz e = true) :
    ((cx : ℚ) ≤ (calculateDualPoint V iso cx cy cz code).x ∧
      (calculateDualPoint V iso cx cy cz code).x ≤ (cx : ℚ) + 1) ∧
    ((cy : ℚ) ≤ (calculateDualPoint V iso cx cy cz code).y ∧
      (calculateDualPoint V iso cx cy cz code).y ≤ (cy : ℚ) + 1) ∧
    ((cz : ℚ) ≤ (calculateDualPoint V iso cx cy cz code).z ∧
      (calculateDualPoint V iso cx cy cz code).z ≤ (cz : ℚ) + 1) := by
  have hb := contribFold_bounds V iso cx cy cz (codeEdges code) hs
    (fun e he => codeEdges_lt he) (0, 0, 0)
  have hlen : 0 < (codeEdges code).length := List.length_pos.mpr hne
  have hlenQ : (0 : ℚ) < ((codeEdges code).length : ℚ) := by exact_mod_cast hlen
  dsimp only at hb
  unfold calculateDualPoint
  dsimp only
  have key : ∀ w c : ℚ, 0 ≤ w → w ≤ ((codeEdges code).length : ℚ) →
      c ≤ c + w / ((codeEdges code).length : ℚ) ∧
      c + w / ((codeEdges code).length : ℚ) ≤ c + 1 := by
    intro w c hw0 hwL
    constructor
    · have := div_nonneg hw0 hlenQ.le
      linarith
    · have := (div_le_one hlenQ).mpr hwL
      linarith
  exact ⟨key _ _ hb.1.1 (by linarith [hb.1.2]),
    key _ _ hb.2.1.1 (by linarith [hb.2.1.2]),
    key _ _ hb.2.2.1 (by linarith [hb.2.2.2])⟩

/-! ## Claim C1: the DMC table property -/

/-- C1: for every cube code c, each entry of the generated DMC table row
identifies only edges whose endpoint corners differ in membership under c,
the four entries are pairwise disjoint, and their union is exactly the set
of straddling edges (rows of the substituted codes 126, 189, 219, 231
included, since c ranges over all 256 codes). -/
theorem dmcTable_row_property : ∀ c : Fin 256,
    (∀ entry ∈ dualPointsList c.val, entry &&& straddleMask c.val = entry) ∧
    List.Pairwise (fun a b => a &&& b = 0) (dualPointsList c.val) ∧
    (dualPointsList c.val).foldl (fun a b => a ||| b) 0 = straddleMask c.val := by
  decide

/-! ## Claim C2: getDualPointCode refines its specification -/

/-- The first hit of a `find?` scan (default 0) is the head of the filter. -/
theorem find?_getD_eq_filter_headD (l : List Nat) (p : Nat → Bool) :
    (l.find? p).getD 0 = (l.filter p).headD 0 := by
  induction l with
  | nil => rfl
  | cons a t IH =>
    by_cases h : p a
    · rw [List.find?_cons_of_pos _ h, List.filter_cons_of_pos h]
      rfl
    · rw [List.find?_cons_of_neg _ h, List.filter_cons_of_neg h]
      exact IH

/-- The manifold-corrected cube code agrees with its spec description. -/
theorem specCorrectedCubeCode_eq (V : Volume) (gm : Bool) (iso cx cy cz : Int) :
    correctedCubeCode V gm iso cx cy cz = specCorrectedCubeCode V gm iso cx cy cz := by
  have hcc := getCellCode_lt V iso cx cy cz
  have hrange := problematicConfigs_range ⟨getCellCode V iso cx cy cz, hcc⟩
  obtain ⟨n, hn⟩ : ∃ n, problematicConfigs (getCellCode V iso cx cy cz) = n := ⟨_, rfl⟩
  cases gm with
  | false => simp [correctedCubeCode, specCorrectedCubeCode]
  | true =>
    unfold correctedCubeCode specCorrectedCubeCode
    dsimp only
    rw [hn] at hrange ⊢
    simp only [if_pos rfl, true_and]
    rcases hrange with h | hle
    · subst h
      simp
    · interval_cases n <;> simp [dimOf] <;> norm_num <;> split_ifs <;> simp_all

/-- C2: `getDualPointCode` computes the cell code, applies the manifold
neighbour correction exactly as specified (axis d>>1, sign +1 iff d odd,
in-range neighbour with problematic code forces c XOR 0xFF), and returns
the first table entry containing the edge, or 0. -/
theorem getDualPointCode_refines_spec (V : Volume) (gm : Bool) (iso cx cy cz : Int)
    (edge : Nat) :
    getDualPointCode V gm iso cx cy cz edge =
    getDualPointCodeSpec V gm iso cx cy cz edge := by
  unfold getDualPointCode getDualPointCodeSpec
  rw [find?_getD_eq_filter_headD, specCorrectedCubeCode_eq]

/-! ## Claim C3: the manifold table contract -/

/-- C3 as stated is false: cube mask 130 has inside-corners on the +x face
exactly {C1, C7}, yet the generated manifold table stores the sentinel 255
for it. -/
theorem manifoldContract_counterexample :
    130 &&& (C1 ||| C3 ||| C5 ||| C7) = C1 ||| C7 ∧
    problematicConfigs 130 = 255 := by decide

/-- C3 amended: among the cube masks whose +x-face inside set is exactly
{C1,C7} or {C3,C5}, the generated manifold table is defined (≠ 255) exactly
for the x-axis roll images of the C16 and C19 representatives, the masks
61, 124, 125, 199, 211 and 215. -/
theorem manifoldContract_amended : ∀ c : Fin 256,
    (c.val &&& (C1 ||| C3 ||| C5 ||| C7) = (C1 ||| C7) ∨
     c.val &&& (C1 ||| C3 ||| C5 ||| C7) = (C3 ||| C5)) →
    (problematicConfigs c.val ≠ 255 ↔ c.val ∈ [61, 124, 125, 199, 211, 215]) := by
  decide

theorem manifoldContract_amended_witness :
    ((199 : Nat) &&& (C1 ||| C3 ||| C5 ||| C7) = (C1 ||| C7) ∨
     (199 : Nat) &&& (C1 ||| C3 ||| C5 ||| C7) = (C3 ||| C5)) ∧
    (problematicConfigs 199 ≠ 255 ↔ (199 : Nat) ∈ [61, 124, 125, 199, 211, 215]) :=
  ⟨by decide, manifoldContract_amended ⟨199, by norm_num⟩ (by decide)⟩

/-! ## Claim C4: emitted vertices lie in the unit cube of their cell -/

/-- C4: the vertex computed by `calculateDualPoint` at cell (cx,cy,cz) from
the point code that `getDualPointCode` returns for a crossed (straddling)
edge — which is how every vertex emitted by `build` arises — satisfies
cx ≤ v.x ≤ cx+1, cy ≤ v.y ≤ cy+1 and cz ≤ v.z ≤ cz+1. -/
theorem emittedVertex_in_unit_cube (V : Volume) (gm : Bool) (iso cx cy cz : Int)
    (e : Fin 12) (hs : edgeStraddles V iso cx cy cz e.val = true) :
    ((cx : ℚ) ≤ (calculateDualPoint V iso cx cy cz
        (getDualPointCode V gm iso cx cy cz (1 <<< e.val))).x ∧
      (calculateDualPoint V iso cx cy cz
        (getDualPointCode V gm iso cx cy cz (1 <<< e.val))).x ≤ (cx : ℚ) + 1) ∧
    ((cy : ℚ) ≤ (calculateDualPoint V iso cx cy cz
        (getDualPointCode V gm iso cx cy cz (1 <<< e.val))).y ∧
      (calculateDualPoint V iso cx cy cz
        (getDualPointCode V gm iso cx cy cz (1 <<< e.val))).y ≤ (cy : ℚ) + 1) ∧
    ((cz : ℚ) ≤ (calculateDualPoint V iso cx cy cz
        (getDualPointCode V gm iso cx cy cz (1 <<< e.val))).z ∧
      (calculateDualPoint V iso cx cy cz
        (getDualPointCode V gm iso cx cy cz (1 <<< e.val))).z ≤ (cz : ℚ) + 1) := by
  have hcontain := getDualPointCode_contains V gm iso cx cy cz e hs
  have hmem : e.val ∈ codeEdges (getDualPointCode V gm iso cx cy cz (1 <<< e.val)) :=
    mem_codeEdges.mpr ⟨e.isLt, hcontain⟩
  have hne : codeEdges (getDualPointCode V gm iso cx cy cz (1 <<< e.val)) ≠ [] := by
    intro h
    rw [h] at hmem
    exact List.not_mem_nil _ hmem
  have hstr : ∀ e2 ∈ codeEdges (getDualPointCode V gm iso cx cy cz (1 <<< e.val)),
      edgeStraddles V iso cx cy cz e2 = true := by
    intro e2 he2
    exact getDualPointCode_straddles V gm iso cx cy cz _
      ⟨e2, (mem_codeEdges.mp he2).1⟩ (mem_codeEdges.mp he2).2
  exact calculateDualPoint_bounds V iso cx cy cz _ hne hstr

theorem emittedVertex_in_unit_cube_witness :
    edgeStraddles sampleVolume 128 1 1 1 0 = true ∧
    (((((1 : Int) : ℚ) ≤ (calculateDualPoint sampleVolume 128 1 1 1
        (getDualPointCode sampleVolume false 128 1 1 1 (1 <<< 0))).x ∧
        (calculateDualPoint sampleVolume 128 1 1 1
        (getDualPointCode sampleVolume false 128 1 1 1 (1 <<< 0))).x ≤ ((1 : Int) : ℚ) + 1) ∧
      ((((1 : Int) : ℚ) ≤ (calculateDualPoint sampleVolume 128 1 1 1
        (getDualPointCode sampleVolume false 128 1 1 1 (1 <<< 0))).y ∧
        (calculateDualPoint sampleVolume 128 1 1 1
        (getDualPointCode sampleVolume false 128 1 1 1 (1 <<< 0))).y ≤ ((1 : Int) : ℚ) + 1)) ∧
      ((((1 : Int) : ℚ) ≤ (calculateDualPoint sampleVolume 128 1 1 1
        (getDualPointCode sampleVolume false 128 1 1 1 (1 <<< 0))).z ∧
        (calculateDualPoint sampleVolume 128 1 1 1
        (getDualPointCode sampleVolume false 128 1 1 1 (1 <<< 0))).z ≤ ((1 : Int) : ℚ) + 1)))) :=
  ⟨by decide, emittedVertex_in_unit_cube sampleVolume false 128 1 1 1 ⟨0, by norm_num⟩ (by decide)⟩

/-! ## Claim C6: no division by zero in calculateDualPoint -/

/-- C6: for a crossed (straddling) edge, the point code returned by
`getDualPointCode` is non-zero and contains the queried edge (so the point
count divisor is at least 1), and every edge set in the code joins two
samples classified differently, so each interpolation denominator `b - a`
is non-zero. -/
theorem calculateDualPoint_no_div_by_zero (V : Volume) (gm : Bool) (iso cx cy cz : Int)
    (e : Fin 12) (hs : edgeStraddles V iso cx cy cz e.val = true) :
    getDualPointCode V gm iso cx cy cz (1 <<< e.val) ≠ 0 ∧
    getDualPointCode V gm iso cx cy cz (1 <<< e.val) &&& (1 <<< e.val) ≠ 0 ∧
    1 ≤ (codeEdges (getDualPointCode V gm iso cx cy cz (1 <<< e.val))).length ∧
    ∀ e2 : Fin 12,
      getDualPointCode V gm iso cx cy cz (1 <<< e.val) &&& (1 <<< e2.val) ≠ 0 →
      (edgeSamples V cx cy cz e2.val).1 ≠ (edgeSamples V cx cy cz e2.val).2 := by
  have hcontain := getDualPointCode_contains V gm iso cx cy cz e hs
  have hmem : e.val ∈ codeEdges (getDualPointCode V gm iso cx cy cz (1 <<< e.val)) :=
    mem_codeEdges.mpr ⟨e.isLt, hcontain⟩
  refine ⟨?_, hcontain, ?_, ?_⟩
  · intro h
    rw [h] at hcontain
    exact hcontain (Nat.zero_and _)
  · exact List.length_pos.mpr (List.ne_nil_of_mem hmem)
  · intro e2 h2
    exact edgeStraddles_ne (getDualPointCode_straddles V gm iso cx cy cz _ e2 h2)

theorem calculateDualPoint_no_div_by_zero_witness :
    edgeStraddles sampleVolume 128 1 1 1 0 = true ∧
    (getDualPointCode sampleVolume false 128 1 1 1 (1 <<< 0) ≠ 0 ∧
     getDualPointCode sampleVolume false 128 1 1 1 (1 <<< 0) &&& (1 <<< 0) ≠ 0 ∧
     1 ≤ (codeEdges (getDualPointCode sampleVolume false 128 1 1 1 (1 <<< 0))).length ∧
     ∀ e2 : Fin 12,
       getDualPointCode sampleVolume false 128 1 1 1 (1 <<< 0) &&& (1 <<< e2.val) ≠ 0 →
       (edgeSamples sampleVolume 1 1 1 e2.val).1 ≠ (edgeSamples sampleVolume 1 1 1 e2.val).2) :=
  ⟨by decide, calculateDualPoint_no_div_by_zero sampleVolume false 128 1 1 1
    ⟨0, by norm_num⟩ (by decide)⟩

/-! ## Claim C9: degenerate extents give empty outputs -/

/-- The iterated cell list is empty when any extent is below 2. -/
theorem cellList_nil (V : Volume) (h : V.dimX < 2 ∨ V.dimY < 2 ∨ V.dimZ < 2) :
    cellList V = [] := by
  unfold cellList
  rcases h with h | h | h
  · have hz : (V.dimX - 2).toNat = 0 := by omega
    simp [hz]
  · have hz : (V.dimY - 2).toNat = 0 := by omega
    simp [hz]
  · have hz : (V.dimZ - 2).toNat = 0 := by omega
    simp [hz]

/-- C9: with any extent below 2 the reduced iteration range is empty and
`build` returns empty vertex and quad containers in both modes (this is a
regular return, not an error). -/
theorem build_empty_of_small_extent (V : Volume) (iso : Int) (gm gs : Bool)
    (h : V.dimX < 2 ∨ V.dimY < 2 ∨ V.dimZ < 2) :
    build V iso gm gs = ([], []) := by
  have hnil := cellList_nil V h
  cases gs with
  | true => simp [build, buildQuadSoup, hnil]
  | false => simp [build, buildSharedVerticesQuads, hnil]

theorem build_empty_of_small_extent_witness :
    ((Volume.mk 1 5 5 (fun _ => 0)).dimX < 2 ∨ (Volume.mk 1 5 5 (fun _ => 0)).dimY < 2 ∨
      (Volume.mk 1 5 5 (fun _ => 0)).dimZ < 2) ∧
    build (Volume.mk 1 5 5 (fun _ => 0)) 0 false false = ([], []) :=
  ⟨Or.inl (by norm_num), build_empty_of_small_extent _ 0 false false (Or.inl (by norm_num))⟩

/-! ## Claim C10: no quads unless two extents reach 4 -/

/-- Cells of the iteration domain satisfy the loop bounds. -/
theorem mem_cellList {V : Volume} {c : Int × Int × Int} (h : c ∈ cellList V) :
    0 ≤ c.1 ∧ c.1 < V.dimX - 2 ∧ 0 ≤ c.2.1 ∧ c.2.1 < V.dimY - 2 ∧
    0 ≤ c.2.2 ∧ c.2.2 < V.dimZ - 2 := by
  unfold cellList at h
  simp at h
  obtain ⟨z, hz, y, hy, _, ⟨x, hx, rfl⟩, rfl⟩ := h
  dsimp only
  omega

theorem xEdgeStepShared_skip (V : Volume) (gm : Bool) (iso x y z : Int)
    (st : SharedState) (h : ¬(z > 0 ∧ y > 0)) :
    xEdgeStepShared V gm iso x y z st = st := by
  unfold xEdgeStepShared
  rw [if_neg h]

theorem yEdgeStepShared_skip (V : Volume) (gm : Bool) (iso x y z : Int)
    (st : SharedState) (h : ¬(z > 0 ∧ x > 0)) :
    yEdgeStepShared V gm iso x y z st = st := by
  unfold yEdgeStepShared
  rw [if_neg h]

theorem zEdgeStepShared_skip (V : Volume) (gm : Bool) (iso x y z : Int)
    (st : SharedState) (h : ¬(x > 0 ∧ y > 0)) :
    zEdgeStepShared V gm iso x y z st = st := by
  unfold zEdgeStepShared
  rw [if_neg h]

theorem xEdgeStepSoup_skip (V : Volume) (gm : Bool) (iso x y z : Int)
    (verts : List Vertex) (h : ¬(z > 0 ∧ y > 0)) :
    xEdgeStepSoup V gm iso x y z verts = verts := by
  unfold xEdgeStepSoup
  rw [if_neg h]

theorem yEdgeStepSoup_skip (V : Volume) (gm : Bool) (iso x y z : Int)
    (verts : List Vertex) (h : ¬(z > 0 ∧ x > 0)) :
    yEdgeStepSoup V gm iso x y z verts = verts := by
  unfold yEdgeStepSoup
  rw [if_neg h]

theorem zEdgeStepSoup_skip (V : Volume) (gm : Bool) (iso x y z : Int)
    (verts : List Vertex) (h : ¬(x > 0 ∧ y > 0)) :
    zEdgeStepSoup V gm iso x y z verts = verts := by
  unfold zEdgeStepSoup
  rw [if_neg h]

/-- A fold whose step fixes every state is the identity. -/
theorem foldl_fixed {α β : Type} (l : List α) (F : β → α → β) (init : β)
    (h : ∀ c ∈ l, ∀ s, F s c = s) : l.foldl F init = init := by
  induction l generalizing init with
  | nil => rfl
  | cons a t IH =>
    rw [List.foldl_cons, h a (List.mem_cons_self a t)]
    exact IH init (fun c hc s => h c (List.mem_cons_of_mem a hc) s)

/-- C10: `build` emits no quads unless two of the three extents are at
least 4: an x-edge quad needs dimY ≥ 4 and dimZ ≥ 4 (guards y>0, z>0
inside the loop bounds), a y-edge quad needs dimX ≥ 4 and dimZ ≥ 4, a
z-edge quad needs dimX ≥ 4 and dimY ≥ 4; when all three pair conditions
fail the mesh is empty in both modes (so extents (2,2,2) and (3,3,3)
always produce an empty mesh). -/
theorem build_no_quads_of_thin (V : Volume) (iso : Int) (gm gs : Bool)
    (h1 : ¬(4 ≤ V.dimY ∧ 4 ≤ V.dimZ))
    (h2 : ¬(4 ≤ V.dimX ∧ 4 ≤ V.dimZ))
    (h3 : ¬(4 ≤ V.dimX ∧ 4 ≤ V.dimY)) :
    (build V iso gm gs).2 = [] := by
  have hstep : ∀ c ∈ cellList V,
      (∀ st : SharedState, cellStepShared V gm iso c.1 c.2.1 c.2.2 st = st) ∧
      (∀ vs : List Vertex, cellStepSoup V gm iso c.1 c.2.1 c.2.2 vs = vs) := by
    intro c hc
    have hb := mem_cellList hc
    have gx : ¬(c.2.2 > 0 ∧ c.2.1 > 0) := by omega
    have gy : ¬(c.2.2 > 0 ∧ c.1 > 0) := by omega
    have gz : ¬(c.1 > 0 ∧ c.2.1 > 0) := by omega
    constructor
    · intro st
      unfold cellStepShared
      rw [xEdgeStepShared_skip V gm iso _ _ _ st gx,
        yEdgeStepShared_skip V gm iso _ _ _ st gy,
        zEdgeStepShared_skip V gm iso _ _ _ st gz]
    · intro vs
      unfold cellStepSoup
      rw [xEdgeStepSoup_skip V gm iso _ _ _ vs gx,
        yEdgeStepSoup_skip V gm iso _ _ _ vs gy,
        zEdgeStepSoup_skip V gm iso _ _ _ vs gz]
  cases gs with
  | true =>
    have hv : (cellList V).foldl
        (fun vs c => cellStepSoup V gm iso c.1 c.2.1 c.2.2 vs) [] = [] :=
      foldl_fixed _ _ _ (fun c hc s => (hstep c hc).2 s)
    simp [build, buildQuadSoup, hv]
  | false =>
    have hv : (cellList V).foldl
        (fun st c => cellStepShared V gm iso c.1 c.2.1 c.2.2 st)
        (SharedState.mk [] [] []) = SharedState.mk [] [] [] :=
      foldl_fixed _ _ _ (fun c hc s => (hstep c hc).1 s)
    simp [build, buildSharedVerticesQuads, hv]

theorem build_no_quads_of_thin_witness :
    (¬(4 ≤ (Volume.mk 3 3 3 (fun i => i % 2)).dimY ∧ 4 ≤ (Volume.mk 3 3 3 (fun i => i % 2)).dimZ)) ∧
    (build (Volume.mk 3 3 3 (fun i => i % 2)) 1 false false).2 = [] :=
  ⟨by norm_num,
   build_no_quads_of_thin (Volume.mk 3 3 3 (fun i => i % 2)) 1 false false
     (by norm_num) (by norm_num) (by norm_num)⟩

/-! ## Claim C8: quad-soup outputs are strictly sequential -/

theorem soupQuad_length (V : Volume) (gm : Bool) (iso : Int)
    (p0 p1 p2 p3 : Int × Int × Int) (e0 e1 e2 e3 : Nat) (fwd : Bool)
    (verts : List Vertex) :
    (soupQuad V gm iso p0 p1 p2 p3 e0 e1 e2 e3 fwd verts).length = verts.length + 4 := by
  unfold soupQuad
  split <;> simp

theorem cellStepSoup_length_mod (V : Volume) (gm : Bool) (iso x y z : Int)
    (verts : List Vertex) :
    (cellStepSoup V gm iso x y z verts).length % 4 = verts.length % 4 := by
  have key : ∀ step : List Vertex → List Vertex,
      (∀ vs, step vs = vs ∨ (step vs).length = vs.length + 4) →
      ∀ vs : List Vertex, (step vs).length % 4 = vs.length % 4 := by
    intro step hstep vs
    rcases hstep vs with h | h
    · rw [h]
    · rw [h]; omega
  have hx : ∀ vs, xEdgeStepSoup V gm iso x y z vs = vs ∨
      (xEdgeStepSoup V gm iso x y z vs).length = vs.length + 4 := by
    intro vs
    unfold xEdgeStepSoup
    split
    · split
      · exact Or.inr (soupQuad_length ..)
      · exact Or.inl rfl
    · exact Or.inl rfl
  have hy : ∀ vs, yEdgeStepSoup V gm iso x y z vs = vs ∨
      (yEdgeStepSoup V gm iso x y z vs).length = vs.length + 4 := by
    intro vs
    unfold yEdgeStepSoup
    split
    · split
      · exact Or.inr (soupQuad_length ..)
      · exact Or.inl rfl
    · exact Or.inl rfl
  have hz : ∀ vs, zEdgeStepSoup V gm iso x y z vs = vs ∨
      (zEdgeStepSoup V gm iso x y z vs).length = vs.length + 4 := by
    intro vs
    unfold zEdgeStepSoup
    split
    · split
      · exact Or.inr (soupQuad_length ..)
      · exact Or.inl rfl
    · exact Or.inl rfl
  unfold cellStepSoup
  rw [key _ hz, key _ hy, key _ hx]

/-- The vertex count of the soup loop is divisible by four. -/
theorem soupFold_length_mod (V : Volume) (gm : Bool) (iso : Int)
    (l : List (Int × Int × Int)) (init : List Vertex) :
    (l.foldl (fun vs c => cellStepSoup V gm iso c.1 c.2.1 c.2.2 vs) init).length % 4 =
    init.length % 4 := by
  induction l generalizing init with
  | nil => rfl
  | cons c t IH =>
    rw [List.foldl_cons, IH, cellStepSoup_length_mod]

/-- C8: in quad-soup mode `|vertices| = 4 · |quads|` and quad k has indices
exactly (4k, 4k+1, 4k+2, 4k+3). -/
theorem buildQuadSoup_sequential (V : Volume) (iso : Int) (gm : Bool) :
    (build V iso gm true).1.length = 4 * (build V iso gm true).2.length ∧
    (build V iso gm true).2 =
      (List.range ((build V iso gm true).2.length)).map
        (fun k => (4 * k, 4 * k + 1, 4 * k + 2, 4 * k + 3)) := by
  have hmod := soupFold_length_mod V gm iso (cellList V) []
  simp only [List.length_nil] at hmod
  have hbuild : build V iso gm true = buildQuadSoup V gm iso := by simp [build]
  rw [hbuild]
  unfold buildQuadSoup
  dsimp only
  constructor
  · simp only [List.length_map, List.length_range]
    omega
  · simp only [List.length_map, List.length_range]
    apply List.map_congr_left
    intro a _
    simp [Nat.mul_comm]

/-! ## Claim C5: the winding rule -/

theorem xEdge_not_both {V : Volume} {iso x y z : Int}
    (hcross : xEdgeEntering V iso x y z ∨ xEdgeExiting V iso x y z) :
    decide (xEdgeExiting V iso x y z) = !decide (xEdgeEntering V iso x y z) := by
  by_cases he : xEdgeEntering V iso x y z
  · have hne : ¬ xEdgeExiting V iso x y z := fun hex => absurd hex.1 (not_le.mpr he.1)
    simp [he, hne]
  · rcases hcross with h | h
    · exact absurd h he
    · simp [he, h]

theorem yEdge_not_both {V : Volume} {iso x y z : Int}
    (hcross : yEdgeEntering V iso x y z ∨ yEdgeExiting V iso x y z) :
    decide (yEdgeExiting V iso x y z) = !decide (yEdgeEntering V iso x y z) := by
  by_cases he : yEdgeEntering V iso x y z
  · have hne : ¬ yEdgeExiting V iso x y z := fun hex => absurd hex.1 (not_le.mpr he.1)
    simp [he, hne]
  · rcases hcross with h | h
    · exact absurd h he
    · simp [he, h]

theorem zEdge_not_both {V : Volume} {iso x y z : Int}
    (hcross : zEdgeEntering V iso x y z ∨ zEdgeExiting V iso x y z) :
    decide (zEdgeExiting V iso x y z) = !decide (zEdgeEntering V iso x y z) := by
  by_cases he : zEdgeEntering V iso x y z
  · have hne : ¬ zEdgeExiting V iso x y z := fun hex => absurd hex.1 (not_le.mpr he.1)
    simp [he, hne]
  · rcases hcross with h | h
    · exact absurd h he
    · simp [he, h]

/-- C5: for every crossed edge processed by the build loops, the emitted
quad follows the winding rule of the specification: the x-edge quad is
forward (v0,v1,v2,v3) iff entering and the y- and z-edge quads are forward
iff exiting — i.e. in each branch the reversal flag equals
`specWindingReversed axis entering`; this holds in shared-vertex and
quad-soup modes alike.  Each of the six conjuncts assumes only its own
branch guard and its own edge being crossed, so every crossed edge any
build processes is covered by the conjunct of its axis and mode. -/
theorem winding_rule (V : Volume) (gm : Bool) (iso x y z : Int)
    (st : SharedState) (verts : List Vertex) :
    (z > 0 ∧ y > 0 → xEdgeEntering V iso x y z ∨ xEdgeExiting V iso x y z →
      xEdgeStepShared V gm iso x y z st =
        sharedQuad V gm iso (x,y,z) (x,y,z-1) (x,y-1,z-1) (x,y-1,z) EDGE0 EDGE2 EDGE6 EDGE4
          (!specWindingReversed 0 (decide (xEdgeEntering V iso x y z))) st) ∧
    (z > 0 ∧ x > 0 → yEdgeEntering V iso x y z ∨ yEdgeExiting V iso x y z →
      yEdgeStepShared V gm iso x y z st =
        sharedQuad V gm iso (x,y,z) (x,y,z-1) (x-1,y,z-1) (x-1,y,z) EDGE8 EDGE11 EDGE10 EDGE9
          (!specWindingReversed 1 (decide (yEdgeEntering V iso x y z))) st) ∧
    (x > 0 ∧ y > 0 → zEdgeEntering V iso x y z ∨ zEdgeExiting V iso x y z →
      zEdgeStepShared V gm iso x y z st =
        sharedQuad V gm iso (x,y,z) (x-1,y,z) (x-1,y-1,z) (x,y-1,z) EDGE3 EDGE1 EDGE5 EDGE7
          (!specWindingReversed 2 (decide (zEdgeEntering V iso x y z))) st) ∧
    (z > 0 ∧ y > 0 → xEdgeEntering V iso x y z ∨ xEdgeExiting V iso x y z →
      xEdgeStepSoup V gm iso x y z verts =
        soupQuad V gm iso (x,y,z) (x,y,z-1) (x,y-1,z-1) (x,y-1,z) EDGE0 EDGE2 EDGE6 EDGE4
          (!specWindingReversed 0 (decide (xEdgeEntering V iso x y z))) verts) ∧
    (z > 0 ∧ x > 0 → yEdgeEntering V iso x y z ∨ yEdgeExiting V iso x y z →
      yEdgeStepSoup V gm iso x y z verts =
        soupQuad V gm iso (x,y,z) (x,y,z-1) (x-1,y,z-1) (x-1,y,z) EDGE8 EDGE11 EDGE10 EDGE9
          (!specWindingReversed 1 (decide (yEdgeEntering V iso x y z))) verts) ∧
    (x > 0 ∧ y > 0 → zEdgeEntering V iso x y z ∨ zEdgeExiting V iso x y z →
      zEdgeStepSoup V gm iso x y z verts =
        soupQuad V gm iso (x,y,z) (x-1,y,z) (x-1,y-1,z) (x,y-1,z) EDGE3 EDGE1 EDGE5 EDGE7
          (!specWindingReversed 2 (decide (zEdgeEntering V iso x y z))) verts) := by
  refine ⟨?_, ?_, ?_, ?_, ?_, ?_⟩ <;> intro hg hc
  · have hfx : (!specWindingReversed 0 (decide (xEdgeEntering V iso x y z))) =
        decide (xEdgeEntering V iso x y z) := by
      simp [specWindingReversed]
    rw [hfx]
    unfold xEdgeStepShared
    rw [if_pos hg, if_pos hc]
  · have hfy : (!specWindingReversed 1 (decide (yEdgeEntering V iso x y z))) =
        decide (yEdgeExiting V iso x y z) := by
      rw [yEdge_not_both hc]
      simp [specWindingReversed]
    rw [hfy]
    unfold yEdgeStepShared
    rw [if_pos hg, if_pos hc]
  · have hfz : (!specWindingReversed 2 (decide (zEdgeEntering V iso x y z))) =
        decide (zEdgeExiting V iso x y z) := by
      rw [zEdge_not_both hc]
      simp [specWindingReversed]
    rw [hfz]
    unfold zEdgeStepShared
    rw [if_pos hg, if_pos hc]
  · have hfx : (!specWindingReversed 0 (decide (xEdgeEntering V iso x y z))) =
        decide (xEdgeEntering V iso x y z) := by
      simp [specWindingReversed]
    rw [hfx]
    unfold xEdgeStepSoup
    rw [if_pos hg, if_pos hc]
  · have hfy : (!specWindingReversed 1 (decide (yEdgeEntering V iso x y z))) =
        decide (yEdgeExiting V iso x y z) := by
      rw [yEdge_not_both hc]
      simp [specWindingReversed]
    rw [hfy]
    unfold yEdgeStepSoup
    rw [if_pos hg, if_pos hc]
  · have hfz : (!specWindingReversed 2 (decide (zEdgeEntering V iso x y z))) =
        decide (zEdgeExiting V iso x y z) := by
      rw [zEdge_not_both hc]
      simp [specWindingReversed]
    rw [hfz]
    unfold zEdgeStepSoup
    rw [if_pos hg, if_pos hc]

theorem winding_rule_witness :
    ((1 : Int) > 0 ∧ (1 : Int) > 0) ∧
    (xEdgeEntering sampleVolume 128 1 1 1 ∨ xEdgeExiting sampleVolume 128 1 1 1) ∧
    (yEdgeEntering sampleVolume 128 1 1 1 ∨ yEdgeExiting sampleVolume 128 1 1 1) ∧
    (zEdgeEntering sampleVolume 128 1 1 1 ∨ zEdgeExiting sampleVolume 128 1 1 1) ∧
    (xEdgeStepShared sampleVolume false 128 1 1 1 (SharedState.mk [] [] []) =
      sharedQuad sampleVolume false 128 (1,1,1) (1,1,1-1) (1,1-1,1-1) (1,1-1,1)
        EDGE0 EDGE2 EDGE6 EDGE4
        (!specWindingReversed 0 (decide (xEdgeEntering sampleVolume 128 1 1 1)))
        (SharedState.mk [] [] []) ∧
    yEdgeStepShared sampleVolume false 128 1 1 1 (SharedState.mk [] [] []) =
      sharedQuad sampleVolume false 128 (1,1,1) (1,1,1-1) (1-1,1,1-1) (1-1,1,1)
        EDGE8 EDGE11 EDGE10 EDGE9
        (!specWindingReversed 1 (decide (yEdgeEntering sampleVolume 128 1 1 1)))
        (SharedState.mk [] [] []) ∧
    zEdgeStepShared sampleVolume false 128 1 1 1 (SharedState.mk [] [] []) =
      sharedQuad sampleVolume false 128 (1,1,1) (1-1,1,1) (1-1,1-1,1) (1,1-1,1)
        EDGE3 EDGE1 EDGE5 EDGE7
        (!specWindingReversed 2 (decide (zEdgeEntering sampleVolume 128 1 1 1)))
        (SharedState.mk [] [] []) ∧
    xEdgeStepSoup sampleVolume false 128 1 1 1 [] =
      soupQuad sampleVolume false 128 (1,1,1) (1,1,1-1) (1,1-1,1-1) (1,1-1,1)
        EDGE0 EDGE2 EDGE6 EDGE4
        (!specWindingReversed 0 (decide (xEdgeEntering sampleVolume 128 1 1 1))) [] ∧
    yEdgeStepSoup sampleVolume false 128 1 1 1 [] =
      soupQuad sampleVolume false 128 (1,1,1) (1,1,1-1) (1-1,1,1-1) (1-1,1,1)
        EDGE8 EDGE11 EDGE10 EDGE9
        (!specWindingReversed 1 (decide (yEdgeEntering sampleVolume 128 1 1 1))) [] ∧
    zEdgeStepSoup sampleVolume false 128 1 1 1 [] =
      soupQuad sampleVolume false 128 (1,1,1) (1-1,1,1) (1-1,1-1,1) (1,1-1,1)
        EDGE3 EDGE1 EDGE5 EDGE7
        (!specWindingReversed 2 (decide (zEdgeEntering sampleVolume 128 1 1 1))) []) :=
  ⟨⟨by norm_num, by norm_num⟩, by decide, by decide, by decide,
   (winding_rule sampleVolume false 128 1 1 1 (SharedState.mk [] [] []) []).1
     ⟨by norm_num, by norm_num⟩ (by decide),
   (winding_rule sampleVolume false 128 1 1 1 (SharedState.mk [] [] []) []).2.1
     ⟨by norm_num, by norm_num⟩ (by decide),
   (winding_rule sampleVolume false 128 1 1 1 (SharedState.mk [] [] []) []).2.2.1
     ⟨by norm_num, by norm_num⟩ (by decide),
   (winding_rule sampleVolume false 128 1 1 1 (SharedState.mk [] [] []) []).2.2.2.1
     ⟨by norm_num, by norm_num⟩ (by decide),
   (winding_rule sampleVolume false 128 1 1 1 (SharedState.mk [] [] []) []).2.2.2.2.1
     ⟨by norm_num, by norm_num⟩ (by decide),
   (winding_rule sampleVolume false 128 1 1 1 (SharedState.mk [] [] []) []).2.2.2.2.2
     ⟨by norm_num, by norm_num⟩ (by decide)⟩

/-! ## Claim C7: quads have pairwise distinct indices -/

/-- If `a = d * k` is strictly between `-d` and `d` with `d` positive, both
`a` and `k` vanish. -/
theorem eq_zero_of_mul_bounded {d a k : Int} (hd : 0 < d) (h : a = d * k)
    (h1 : -d < a) (h2 : a < d) : a = 0 ∧ k = 0 := by
  have hk : k = 0 := by
    rcases lt_trichotomy k 0 with hlt | he | hgt
    · exfalso
      have h3 : k ≤ -1 := by omega
      have h4 : d * k ≤ d * (-1) := mul_le_mul_of_nonneg_left h3 hd.le
      have h5 : d * (-1) = -d := by ring
      linarith
    · exact he
    · exfalso
      have h3 : 1 ≤ k := by omega
      have h4 : d * 1 ≤ d * k := mul_le_mul_of_nonneg_left h3 hd.le
      have h5 : d * 1 = d := by ring
      linarith
  refine ⟨?_, hk⟩
  rw [h, hk, mul_zero]

/-- The linearized cell id is injective on cells whose x and y coordinates
respect the volume extents. -/
theorem gA_inj {V : Volume} {x1 y1 z1 x2 y2 z2 : Int}
    (h : gA V x1 y1 z1 = gA V x2 y2 z2)
    (ha : 0 ≤ x1) (hb : x1 < V.dimX) (hc : 0 ≤ x2) (hd : x2 < V.dimX)
    (he : 0 ≤ y1) (hf : y1 < V.dimY) (hg : 0 ≤ y2) (hh : y2 < V.dimY) :
    x1 = x2 ∧ y1 = y2 ∧ z1 = z2 := by
  unfold gA at h
  have hdx : (0 : Int) < V.dimX := by omega
  have hdy : (0 : Int) < V.dimY := by omega
  have e1 : x1 - x2 = V.dimX * ((y2 + V.dimY * z2) - (y1 + V.dimY * z1)) := by
    have expand : V.dimX * ((y2 + V.dimY * z2) - (y1 + V.dimY * z1)) =
        V.dimX * (y2 + V.dimY * z2) - V.dimX * (y1 + V.dimY * z1) := by ring
    rw [expand]
    linarith
  obtain ⟨ex, ek⟩ := eq_zero_of_mul_bounded hdx e1 (by linarith) (by linarith)
  have e2 : y1 - y2 = V.dimY * (z2 - z1) := by
    have expand : V.dimY * (z2 - z1) = V.dimY * z2 - V.dimY * z1 := by ring
    rw [expand]
    linarith
  obtain ⟨ey, ez⟩ := eq_zero_of_mul_bounded hdy e2 (by linarith) (by linarith)
  refine ⟨by linarith, by linarith, by linarith⟩

/-- One `getSharedDualPointIndex` call: preserves the map invariant, leaves
the quads unchanged, extends the vertex list and the map, and afterwards
the key of the call is mapped to the returned index. -/
theorem getShared_step (V : Volume) (gm : Bool) (iso cx cy cz : Int) (edge : Nat)
    (st : SharedState) (hinv : MapInv st) (i : Nat) (st2 : SharedState)
    (hr : getSharedDualPointIndex V gm iso cx cy cz edge st = (i, st2)) :
    MapInv st2 ∧ st2.quads = st.quads ∧
    ((gA V cx cy cz, getDualPointCode V gm iso cx cy cz edge), i) ∈ st2.pointToIndex ∧
    ∀ q ∈ st.pointToIndex, q ∈ st2.pointToIndex := by
  unfold getSharedDualPointIndex at hr
  cases hf : st.pointToIndex.find?
      (fun p => decide (p.1 = (gA V cx cy cz, getDualPointCode V gm iso cx cy cz edge))) with
  | some p =>
    simp only [hf] at hr
    injection hr with h1 h2
    have hkey : p.1 = (gA V cx cy cz, getDualPointCode V gm iso cx cy cz edge) := by
      have := List.find?_some hf
      simpa using this
    have hpm := List.mem_of_find?_eq_some hf
    subst h2
    refine ⟨hinv, rfl, ?_, fun q hq => hq⟩
    have : ((gA V cx cy cz, getDualPointCode V gm iso cx cy cz edge), i) = p := by
      rw [← hkey, ← h1]
    rw [this]
    exact hpm
  | none =>
    simp only [hf] at hr
    injection hr with h1 h2
    subst h2
    constructor
    · constructor
      · intro p hp
        simp only [List.mem_append, List.mem_singleton] at hp
        simp only [List.length_append, List.length_singleton]
        rcases hp with hp | hp
        · have := hinv.1 p hp
          omega
        · rw [hp]
          omega
      · simp only [List.map_append]
        rw [List.nodup_append]
        refine ⟨hinv.2, by simp, ?_⟩
        intro a ha hb
        simp only [List.map_cons, List.map_nil, List.mem_singleton] at hb
        obtain ⟨p, hp, hpa⟩ := List.mem_map.mp ha
        have := hinv.1 p hp
        omega
    · refine ⟨rfl, ?_, fun q hq => List.mem_append_left _ hq⟩
      apply List.mem_append_right
      simp [← h1]

/-- Emitting one shared quad preserves the invariants, and when the four
cells have pairwise distinct linearized ids the new quad has pairwise
distinct indices. -/
theorem sharedQuad_inv (V : Volume) (gm : Bool) (iso : Int)
    (p0 p1 p2 p3 : Int × Int × Int) (e0 e1 e2 e3 : Nat) (fwd : Bool)
    (st : SharedState) (hinv : MapInv st) (hq : ∀ q ∈ st.quads, distinct4 q)
    (h01 : gA V p0.1 p0.2.1 p0.2.2 ≠ gA V p1.1 p1.2.1 p1.2.2)
    (h02 : gA V p0.1 p0.2.1 p0.2.2 ≠ gA V p2.1 p2.2.1 p2.2.2)
    (h03 : gA V p0.1 p0.2.1 p0.2.2 ≠ gA V p3.1 p3.2.1 p3.2.2)
    (h12 : gA V p1.1 p1.2.1 p1.2.2 ≠ gA V p2.1 p2.2.1 p2.2.2)
    (h13 : gA V p1.1 p1.2.1 p1.2.2 ≠ gA V p3.1 p3.2.1 p3.2.2)
    (h23 : gA V p2.1 p2.2.1 p2.2.2 ≠ gA V p3.1 p3.2.1 p3.2.2) :
    MapInv (sharedQuad V gm iso p0 p1 p2 p3 e0 e1 e2 e3 fwd st) ∧
    ∀ q ∈ (sharedQuad V gm iso p0 p1 p2 p3 e0 e1 e2 e3 fwd st).quads, distinct4 q := by
  unfold sharedQuad
  rcases hR0 : getSharedDualPointIndex V gm iso p0.1 p0.2.1 p0.2.2 e0 st with ⟨i0, st1⟩
  have H0 := getShared_step V gm iso p0.1 p0.2.1 p0.2.2 e0 st hinv i0 st1 hR0
  rcases hR1 : getSharedDualPointIndex V gm iso p1.1 p1.2.1 p1.2.2 e1 st1 with ⟨i1, st2⟩
  have H1 := getShared_step V gm iso p1.1 p1.2.1 p1.2.2 e1 st1 H0.1 i1 st2 hR1
  rcases hR2 : getSharedDualPointIndex V gm iso p2.1 p2.2.1 p2.2.2 e2 st2 with ⟨i2, st3⟩
  have H2 := getShared_step V gm iso p2.1 p2.2.1 p2.2.2 e2 st2 H1.1 i2 st3 hR2
  rcases hR3 : getSharedDualPointIndex V gm iso p3.1 p3.2.1 p3.2.2 e3 st3 with ⟨i3, st4⟩
  have H3 := getShared_step V gm iso p3.1 p3.2.1 p3.2.2 e3 st3 H2.1 i3 st4 hR3
  have m0 : ((gA V p0.1 p0.2.1 p0.2.2, getDualPointCode V gm iso p0.1 p0.2.1 p0.2.2 e0), i0)
      ∈ st4.pointToIndex :=
    H3.2.2.2 _ (H2.2.2.2 _ (H1.2.2.2 _ H0.2.2.1))
  have m1 : ((gA V p1.1 p1.2.1 p1.2.2, getDualPointCode V gm iso p1.1 p1.2.1 p1.2.2 e1), i1)
      ∈ st4.pointToIndex :=
    H3.2.2.2 _ (H2.2.2.2 _ H1.2.2.1)
  have m2 : ((gA V p2.1 p2.2.1 p2.2.2, getDualPointCode V gm iso p2.1 p2.2.1 p2.2.2 e2), i2)
      ∈ st4.pointToIndex :=
    H3.2.2.2 _ H2.2.2.1
  have m3 : ((gA V p3.1 p3.2.1 p3.2.2, getDualPointCode V gm iso p3.1 p3.2.1 p3.2.2 e3), i3)
      ∈ st4.pointToIndex :=
    H3.2.2.1
  have inj := List.inj_on_of_nodup_map H3.1.2
  have d01 : i0 ≠ i1 := by
    intro h
    have := inj m0 m1 (by simpa using h)
    exact h01 (by simpa using congrArg (fun q => q.1.1) this)
  have d02 : i0 ≠ i2 := by
    intro h
    have := inj m0 m2 (by simpa using h)
    exact h02 (by simpa using congrArg (fun q => q.1.1) this)
  have d03 : i0 ≠ i3 := by
    intro h
    have := inj m0 m3 (by simpa using h)
    exact h03 (by simpa using congrArg (fun q => q.1.1) this)
  have d12 : i1 ≠ i2 := by
    intro h
    have := inj m1 m2 (by simpa using h)
    exact h12 (by simpa using congrArg (fun q => q.1.1) this)
  have d13 : i1 ≠ i3 := by
    intro h
    have := inj m1 m3 (by simpa using h)
    exact h13 (by simpa using congrArg (fun q => q.1.1) this)
  have d23 : i2 ≠ i3 := by
    intro h
    have := inj m2 m3 (by simpa using h)
    exact h23 (by simpa using congrArg (fun q => q.1.1) this)
  have hquads : st4.quads = st.quads := by
    rw [H3.2.1, H2.2.1, H1.2.1, H0.2.1]
  dsimp only
  rw [hR1]
  dsimp only
  rw [hR2]
  dsimp only
  rw [hR3]
  dsimp only
  cases fwd with
  | true =>
    rw [if_pos rfl]
    refine ⟨⟨H3.1.1, H3.1.2⟩, ?_⟩
    intro q hqm
    simp only [List.mem_append, List.mem_singleton] at hqm
    rcases hqm with hqm | hqm
    · exact hq q (hquads ▸ hqm)
    · rw [hqm]
      exact ⟨d01, d02, d03, d12, d13, d23⟩
  | false =>
    rw [if_neg (by simp)]
    refine ⟨⟨H3.1.1, H3.1.2⟩, ?_⟩
    intro q hqm
    simp only [List.mem_append, List.mem_singleton] at hqm
    rcases hqm with hqm | hqm
    · exact hq q (hquads ▸ hqm)
    · rw [hqm]
      exact ⟨d03, d02, d01, d23.symm, d13.symm, d12.symm⟩

theorem xEdgeStepShared_inv (V : Volume) (gm : Bool) (iso x y z : Int)
    (st : SharedState) (hinv : MapInv st) (hq : ∀ q ∈ st.quads, distinct4 q)
    (hx0 : 0 ≤ x) (hx1 : x < V.dimX - 2)
    (hy0 : 0 ≤ y) (hy1 : y < V.dimY - 2)
    (hz0 : 0 ≤ z) (hz1 : z < V.dimZ - 2) :
    MapInv (xEdgeStepShared V gm iso x y z st) ∧
    ∀ q ∈ (xEdgeStepShared V gm iso x y z st).quads, distinct4 q := by
  unfold xEdgeStepShared
  by_cases hg : z > 0 ∧ y > 0
  · rw [if_pos hg]
    by_cases hc : xEdgeEntering V iso x y z ∨ xEdgeExiting V iso x y z
    · rw [if_pos hc]
      apply sharedQuad_inv V gm iso (x,y,z) (x,y,z-1) (x,y-1,z-1) (x,y-1,z)
        EDGE0 EDGE2 EDGE6 EDGE4 _ st hinv hq <;>
      · dsimp only
        intro heq
        have h := gA_inj heq (by omega) (by omega) (by omega) (by omega)
          (by omega) (by omega) (by omega) (by omega)
        omega
    · rw [if_neg hc]
      exact ⟨hinv, hq⟩
  · rw [if_neg hg]
    exact ⟨hinv, hq⟩

theorem yEdgeStepShared_inv (V : Volume) (gm : Bool) (iso x y z : Int)
    (st : SharedState) (hinv : MapInv st) (hq : ∀ q ∈ st.quads, distinct4 q)
    (hx0 : 0 ≤ x) (hx1 : x < V.dimX - 2)
    (hy0 : 0 ≤ y) (hy1 : y < V.dimY - 2)
    (hz0 : 0 ≤ z) (hz1 : z < V.dimZ - 2) :
    MapInv (yEdgeStepShared V gm iso x y z st) ∧
    ∀ q ∈ (yEdgeStepShared V gm iso x y z st).quads, distinct4 q := by
  unfold yEdgeStepShared
  by_cases hg : z > 0 ∧ x > 0
  · rw [if_pos hg]
    by_cases hc : yEdgeEntering V iso x y z ∨ yEdgeExiting V iso x y z
    · rw [if_pos hc]
      apply sharedQuad_inv V gm iso (x,y,z) (x,y,z-1) (x-1,y,z-1) (x-1,y,z)
        EDGE8 EDGE11 EDGE10 EDGE9 _ st hinv hq <;>
      · dsimp only
        intro heq
        have h := gA_inj heq (by omega) (by omega) (by omega) (by omega)
          (by omega) (by omega) (by omega) (by omega)
        omega
    · rw [if_neg hc]
      exact ⟨hinv, hq⟩
  · rw [if_neg hg]
    exact ⟨hinv, hq⟩

theorem zEdgeStepShared_inv (V : Volume) (gm : Bool) (iso x y z : Int)
    (st : SharedState) (hinv : MapInv st) (hq : ∀ q ∈ st.quads, distinct4 q)
    (hx0 : 0 ≤ x) (hx1 : x < V.dimX - 2)
    (hy0 : 0 ≤ y) (hy1 : y < V.dimY - 2)
    (hz0 : 0 ≤ z) (hz1 : z < V.dimZ - 2) :
    MapInv (zEdgeStepShared V gm iso x y z st) ∧
    ∀ q ∈ (zEdgeStepShared V gm iso x y z st).quads, distinct4 q := by
  unfold zEdgeStepShared
  by_cases hg : x > 0 ∧ y > 0
  · rw [if_pos hg]
    by_cases hc : zEdgeEntering V iso x y z ∨ zEdgeExiting V iso x y z
    · rw [if_pos hc]
      apply sharedQuad_inv V gm iso (x,y,z) (x-1,y,z) (x-1,y-1,z) (x,y-1,z)
        EDGE3 EDGE1 EDGE5 EDGE7 _ st hinv hq <;>
      · dsimp only
        intro heq
        have h := gA_inj heq (by omega) (by omega) (by omega) (by omega)
          (by omega) (by omega) (by omega) (by omega)
        omega
    · rw [if_neg hc]
      exact ⟨hinv, hq⟩
  · rw [if_neg hg]
    exact ⟨hinv, hq⟩

theorem cellStepShared_inv (V : Volume) (gm : Bool) (iso x y z : Int)
    (st : SharedState) (hinv : MapInv st) (hq : ∀ q ∈ st.quads, distinct4 q)
    (hx0 : 0 ≤ x) (hx1 : x < V.dimX - 2)
    (hy0 : 0 ≤ y) (hy1 : y < V.dimY - 2)
    (hz0 : 0 ≤ z) (hz1 : z < V.dimZ - 2) :
    MapInv (cellStepShared V gm iso x y z st) ∧
    ∀ q ∈ (cellStepShared V gm iso x y z st).quads, distinct4 q := by
  unfold cellStepShared
  have h1 := xEdgeStepShared_inv V gm iso x y z st hinv hq hx0 hx1 hy0 hy1 hz0 hz1
  have h2 := yEdgeStepShared_inv V gm iso x y z _ h1.1 h1.2 hx0 hx1 hy0 hy1 hz0 hz1
  exact zEdgeStepShared_inv V gm iso x y z _ h2.1 h2.2 hx0 hx1 hy0 hy1 hz0 hz1

/-- The whole shared-vertex build keeps the invariants. -/
theorem buildShared_inv (V : Volume) (gm : Bool) (iso : Int) :
    MapInv (buildSharedVerticesQuads V gm iso) ∧
    ∀ q ∈ (buildSharedVerticesQuads V gm iso).quads, distinct4 q := by
  unfold buildSharedVerticesQuads
  have aux : ∀ (l : List (Int × Int × Int)),
      (∀ c ∈ l, 0 ≤ c.1 ∧ c.1 < V.dimX - 2 ∧ 0 ≤ c.2.1 ∧ c.2.1 < V.dimY - 2 ∧
        0 ≤ c.2.2 ∧ c.2.2 < V.dimZ - 2) →
      ∀ st : SharedState, MapInv st → (∀ q ∈ st.quads, distinct4 q) →
      MapInv (l.foldl (fun st c => cellStepShared V gm iso c.1 c.2.1 c.2.2 st) st) ∧
      ∀ q ∈ (l.foldl (fun st c => cellStepShared V gm iso c.1 c.2.1 c.2.2 st) st).quads,
        distinct4 q := by
    intro l
    induction l with
    | nil => exact fun _ st h1 h2 => ⟨h1, h2⟩
    | cons c t IH =>
      intro hb st h1 h2
      rw [List.foldl_cons]
      obtain ⟨b1, b2, b3, b4, b5, b6⟩ := hb c (List.mem_cons_self c t)
      have hstep := cellStepShared_inv V gm iso c.1 c.2.1 c.2.2 st h1 h2 b1 b2 b3 b4 b5 b6
      exact IH (fun d hd => hb d (List.mem_cons_of_mem c hd)) _ hstep.1 hstep.2
  exact aux (cellList V) (fun c hc => mem_cellList hc) (SharedState.mk [] [] [])
    ⟨by simp, by simp⟩ (by simp)

/-- C7: every quad emitted by `build`, in either output mode, has four
pairwise distinct vertex indices: in shared mode because the four cells
around a crossed edge have distinct linearized cell ids and distinct keys
always receive distinct indices, in soup mode because the indices are
4k..4k+3. -/
theorem build_quads_distinct (V : Volume) (iso : Int) (gm gs : Bool) :
    ∀ q ∈ (build V iso gm gs).2, distinct4 q := by
  cases gs with
  | false =>
    intro q hq
    exact (buildShared_inv V gm iso).2 q hq
  | true =>
    intro q hq
    simp only [build, if_pos, buildQuadSoup, List.mem_map, List.mem_range] at hq
    obtain ⟨k, _, rfl⟩ := hq
    unfold distinct4
    dsimp only
    exact ⟨by omega, by omega, by omega, by omega, by omega, by omega⟩

theorem build_quads_distinct_witness :
    (0, 1, 2, 3) ∈ (build sampleVolume 128 false true).2 ∧ distinct4 (0, 1, 2, 3) :=
  ⟨by decide, build_quads_distinct sampleVolume 128 false true (0, 1, 2, 3) (by decide)⟩

end DualMC
